import Mathlib

/-!
Verification development for the GMO Coin exchange connectivity adapter
(Rust crate with REST client, public market-data WebSocket client and
private event WebSocket client).  The Rust sources are embedded shallowly:
pure computations become Lean functions, the reconnect loops become
explicit step functions on small state machines, and side effects
(WebSocket sends, rate-limiter waits, callback dispatches) become events
in explicit traces.
-/

set_option maxHeartbeats 1600000
set_option maxRecDepth 8192

namespace Gmocoin

/-! ## JSON values

A model of `serde_json::Value` as the embedded code inspects it.  Numbers
are modelled as unbounded integers; `asI64` succeeds exactly on values
representable in an `i64`, mirroring `serde_json::Value::as_i64` (numbers
outside the `i64`/`u64` range are floats in serde and yield `None`).
-/

inductive Json where
  | null
  | bool (b : Bool)
  | num (n : Int)
  | str (s : String)
  | arr (items : List Json)
  | obj (fields : List (String × Json))

/-- Field access on a JSON object, as `Value::get(key)`: `none` unless the
value is an object holding the key. -/
def Json.get (v : Json) (key : String) : Option Json :=
  match v with
  | .obj fields => fields.lookup key
  | _ => none

/-- Model of `Value::as_i64`. -/
def Json.asI64 : Json → Option Int
  | .num n => if -(2 ^ 63) ≤ n ∧ n < 2 ^ 63 then some n else none
  | _ => none

/-- Model of `Value::as_str`. -/
def Json.asStr : Json → Option String
  | .str s => some s
  | _ => none

/-- Model of `Value::as_array`. -/
def Json.asArr : Json → Option (List Json)
  | .arr items => some items
  | _ => none

/-- Model of `Value::as_u64`. -/
def Json.asU64 : Json → Option Nat
  | .num n => if 0 ≤ n ∧ n < 2 ^ 64 then some n.toNat else none
  | _ => none

/-- The Rust cast `x as i32` applied to an `i64` value: two's-complement
truncation to 32 bits. -/
def toI32 (n : Int) : Int :=
  (n + 2 ^ 31) % 2 ^ 32 - 2 ^ 31

/-! ## Errors (src/error.rs)

Only the variants produced by the embedded code are modelled.  The
`String` payloads of `Unknown` are abbreviated where the Rust code
interpolates a `serde_json` rendering we do not reproduce. -/

inductive GmocoinError where
  | parseErr
  | exchangeError (status : Int) (messages : String)
  | unknown (msg : String)
deriving DecidableEq

/-! ## Response envelope parsing (src/client/rest.rs, parse_response) -/

/-- The status value `parse_response` tests against zero: the envelope's
`status` field read with `as_i64` (default `-1` if absent or not an
integer), then cast `as i32` (two's-complement truncation), as in
`let status = val.get("status").and_then(|v| v.as_i64()).unwrap_or(-1) as i32`. -/
def envStatus (val : Json) : Int :=
  toI32 (((val.get "status").bind Json.asI64).getD (-1))

/-- The error message `parse_response` attaches to a non-zero status: the
semicolon-joined `message_string` fields of the `messages` array, or a
fallback placeholder containing the body when that array is absent or not
an array (entries without a string `message_string` are skipped by the
`filter_map`). -/
def envMessages (text : String) (val : Json) : String :=
  match (val.get "messages").bind Json.asArr with
  | some items =>
    String.intercalate "; "
      (items.filterMap (fun m => (m.get "message_string").bind Json.asStr))
  | none => "Unknown error. Body: " ++ text

/-- Embedding of `GmocoinRestClient::parse_response` (src/client/rest.rs,
lines 556-590).  `text` is the raw response body; `parsed` is the result
of `serde_json::from_str(text)` (`none` models a serde parse failure,
which the Rust `?` turns into `GmocoinError::ParseError`); `dec` is the
serde decoder for the caller's result type `T`, with `none` modelling a
decode failure.  Every REST primitive of the client (`public_get`,
`public_get_raw`, `private_get`, `private_post`, `private_put`,
`private_request`) feeds its response body through this function. -/
def parseResponse (dec : Json → Option α) (text : String) (parsed : Option Json) :
    Except GmocoinError α :=
  match parsed with
  | none => .error .parseErr
  | some val =>
    if envStatus val = 0 then
      match val.get "data" with
      | some d =>
        match dec d with
        | some res => .ok res
        | none => .error (.unknown "Parse Error on data")
      | none => .error (.unknown ("status=0 but no data. Body: " ++ text))
    else
      .error (.exchangeError (envStatus val) (envMessages text val))

/-! ## SHA-256, HMAC-SHA256 and hex encoding

The Rust client signs with the `hmac`/`sha2` crates
(`HmacSha256 = Hmac<Sha256>`) and `hex::encode`.  These external
collaborators are embedded by their standard definitions (FIPS 180-4 and
RFC 2104), executable over byte lists (`Nat` values below 256). -/

/-- Truncation to a 32-bit word. -/
def w32 (n : Nat) : Nat := n % 4294967296

/-- 32-bit rotate right. -/
def rotr32 (s x : Nat) : Nat := w32 ((x >>> s) ||| (x <<< (32 - s)))

def bigSigma0 (x : Nat) : Nat := rotr32 2 x ^^^ rotr32 13 x ^^^ rotr32 22 x

def bigSigma1 (x : Nat) : Nat := rotr32 6 x ^^^ rotr32 11 x ^^^ rotr32 25 x

def smallSigma0 (x : Nat) : Nat := rotr32 7 x ^^^ rotr32 18 x ^^^ (x >>> 3)

def smallSigma1 (x : Nat) : Nat := rotr32 17 x ^^^ rotr32 19 x ^^^ (x >>> 10)

/-- The SHA-256 round constants. -/
def sha256K : Array Nat := #[
  1116352408, 1899447441, 3049323471, 3921009573,
  961987163, 1508970993, 2453635748, 2870763221,
  3624381080, 310598401, 607225278, 1426881987,
  1925078388, 2162078206, 2614888103, 3248222580,
  3835390401, 4022224774, 264347078, 604807628,
  770255983, 1249150122, 1555081692, 1996064986,
  2554220882, 2821834349, 2952996808, 3210313671,
  3336571891, 3584528711, 113926993, 338241895,
  666307205, 773529912, 1294757372, 1396182291,
  1695183700, 1986661051, 2177026350, 2456956037,
  2730485921, 2820302411, 3259730800, 3345764771,
  3516065817, 3600352804, 4094571909, 275423344,
  430227734, 506948616, 659060556, 883997877,
  958139571, 1322822218, 1537002063, 1747873779,
  1955562222, 2024104815, 2227730452, 2361852424,
  2428436474, 2756734187, 3204031479, 3329325298]

/-- Working state of one SHA-256 compression. -/
structure Hash8 where
  a : Nat
  b : Nat
  c : Nat
  d : Nat
  e : Nat
  f : Nat
  g : Nat
  h : Nat
deriving DecidableEq

/-- SHA-256 initial hash value. -/
def sha256Init : Hash8 :=
  ⟨1779033703, 3144134277, 1013904242, 2773480762,
   1359893119, 2600822924, 528734635, 1541459225⟩

/-- One SHA-256 round. -/
def sha256Round (st : Hash8) (ki wi : Nat) : Hash8 :=
  let s1 := bigSigma1 st.e
  let ch := (st.e &&& st.f) ^^^ ((4294967295 ^^^ st.e) &&& st.g)
  let temp1 := w32 (st.h + s1 + ch + ki + wi)
  let s0 := bigSigma0 st.a
  let maj := (st.a &&& st.b) ^^^ (st.a &&& st.c) ^^^ (st.b &&& st.c)
  let temp2 := w32 (s0 + maj)
  ⟨w32 (temp1 + temp2), st.a, st.b, st.c, w32 (st.d + temp1), st.e, st.f, st.g⟩

/-- The 16 big-endian message words of one 64-byte block. -/
def wordsOfBlock (block : List Nat) : Array Nat :=
  ((List.range 16).map (fun i =>
    block.getD (4 * i) 0 * 16777216 + block.getD (4 * i + 1) 0 * 65536 +
    block.getD (4 * i + 2) 0 * 256 + block.getD (4 * i + 3) 0)).toArray

/-- Message-schedule extension of the 16 words to 64. -/
def sha256Schedule (w0 : Array Nat) : Array Nat :=
  (List.range 48).foldl (fun w t =>
    let i := t + 16
    w.push (w32 (w.getD (i - 16) 0 + smallSigma0 (w.getD (i - 15) 0) +
      w.getD (i - 7) 0 + smallSigma1 (w.getD (i - 2) 0)))) w0

/-- SHA-256 compression of one 64-byte block into the running hash. -/
def sha256Compress (hs : Hash8) (block : List Nat) : Hash8 :=
  let w := sha256Schedule (wordsOfBlock block)
  let fin := (List.range 64).foldl
    (fun st i => sha256Round st (sha256K.getD i 0) (w.getD i 0)) hs
  ⟨w32 (hs.a + fin.a), w32 (hs.b + fin.b), w32 (hs.c + fin.c), w32 (hs.d + fin.d),
   w32 (hs.e + fin.e), w32 (hs.f + fin.f), w32 (hs.g + fin.g), w32 (hs.h + fin.h)⟩

/-- Merkle-Damgard padding: append 0x80, zeros to 56 mod 64, and the
64-bit big-endian bit length. -/
def sha256Pad (msg : List Nat) : List Nat :=
  let len := msg.length
  let zeros := (119 - len % 64) % 64
  msg ++ 0x80 :: List.replicate zeros 0 ++
    (List.range 8).map (fun i => 8 * len / 2 ^ (8 * (7 - i)) % 256)

/-- Big-endian bytes of a 32-bit word. -/
def wordBytes (x : Nat) : List Nat :=
  [x / 16777216 % 256, x / 65536 % 256, x / 256 % 256, x % 256]

/-- SHA-256 digest (32 bytes) of a byte list. -/
def sha256Bytes (msg : List Nat) : List Nat :=
  let padded := sha256Pad msg
  let fin := (List.range (padded.length / 64)).foldl
    (fun hs i => sha256Compress hs ((padded.drop (64 * i)).take 64)) sha256Init
  wordBytes fin.a ++ wordBytes fin.b ++ wordBytes fin.c ++ wordBytes fin.d ++
  wordBytes fin.e ++ wordBytes fin.f ++ wordBytes fin.g ++ wordBytes fin.h

/-- HMAC-SHA256 (RFC 2104): block size 64; keys longer than one block are
hashed first. -/
def hmacSha256 (key msg : List Nat) : List Nat :=
  let k0 := if 64 < key.length then sha256Bytes key else key
  let kPad := k0 ++ List.replicate (64 - k0.length) 0
  sha256Bytes ((kPad.map (fun b => b ^^^ 0x5c)) ++
    sha256Bytes ((kPad.map (fun b => b ^^^ 0x36)) ++ msg))

/-- Lower-case hex digit. -/
def hexDigit (n : Nat) : Char :=
  if n < 10 then Char.ofNat (48 + n) else Char.ofNat (87 + n)

/-- Lower-case hex rendering of a byte list, as `hex::encode`. -/
def hexEncode (bytes : List Nat) : String :=
  String.mk (bytes.flatMap (fun b => [hexDigit (b / 16), hexDigit (b % 16)]))

/-- UTF-8 encoding of one character (the standard encoding, as
`String.utf8EncodeChar`). -/
def utf8Bytes (c : Char) : List Nat :=
  let v := c.toNat
  if v < 128 then [v]
  else if v < 2048 then [192 + v / 64, 128 + v % 64]
  else if v < 65536 then [224 + v / 4096, 128 + v / 64 % 64, 128 + v % 64]
  else [240 + v / 262144, 128 + v / 4096 % 64, 128 + v / 64 % 64, 128 + v % 64]

/-- The UTF-8 bytes of a string (`str::as_bytes`). -/
def strBytes (s : String) : List Nat := s.data.flatMap utf8Bytes

/-! ## Signed request construction (src/client/rest.rs) -/

/-- Embedding of `GmocoinRestClient::generate_signature`: hex-encoded
HMAC-SHA256 of the text, keyed by the API secret. -/
def generateSignature (apiSecret text : String) : String :=
  hexEncode (hmacSha256 (strBytes apiSecret) (strBytes text))

def baseUrlPublic : String := "https://api.coin.z.com/public"

def baseUrlPrivate : String := "https://api.coin.z.com/private"

/-- An outbound HTTP request as the reqwest builder assembles it: URL,
query parameters (attached to the URL, not part of any signature),
headers and body. -/
structure HttpRequest where
  method : String
  url : String
  query : List (String × String)
  headers : List (String × String)
  body : String
deriving DecidableEq

/-- Embedding of `GmocoinRestClient::private_get` (src/client/rest.rs,
lines 478-504): the signed text is `timestamp + "GET" + endpoint` - the
query parameters are attached to the request but excluded from the signed
text - and the three auth headers are sent. -/
def privateGetRequest (apiKey apiSecret timestamp endpoint : String)
    (query : List (String × String)) : HttpRequest :=
  let textToSign := timestamp ++ "GET" ++ endpoint
  { method := "GET"
    url := baseUrlPrivate ++ endpoint
    query := query
    headers := [("API-KEY", apiKey), ("API-TIMESTAMP", timestamp),
                ("API-SIGN", generateSignature apiSecret textToSign)]
    body := "" }

/-- Embedding of `GmocoinRestClient::private_request` (src/client/rest.rs,
lines 524-553), used by `private_post` (method "POST"), `private_put`
(method "PUT") and `delete_ws_auth` (method "DELETE"): the signed text is
`timestamp + method + endpoint + body`. -/
def privateRequestRequest (apiKey apiSecret timestamp method endpoint body : String) :
    HttpRequest :=
  let textToSign := timestamp ++ method ++ endpoint ++ body
  { method := method
    url := baseUrlPrivate ++ endpoint
    query := []
    headers := [("API-KEY", apiKey), ("API-TIMESTAMP", timestamp),
                ("API-SIGN", generateSignature apiSecret textToSign),
                ("Content-Type", "application/json")]
    body := body }


/-! ## Order book engine (spec-modelled)

The repository's `lib.rs` and `model/mod.rs` declare `model/orderbook.rs`
(`OrderBook`, used by `GmocoinDataClient::dispatch_message` through
`OrderBook::new`, `OrderBook::apply_snapshot` and `Clone`), but that file
is not under `src/`; the engine is therefore modelled from the spec
(sections 4.3 and 8).  Prices and sizes are rationals standing for the
venue's decimal strings. -/

/-- One price level of a book side. -/
structure BookLevel where
  price : Rat
  size : Rat
deriving DecidableEq

/-- Modelled from the spec: the per-symbol two-sided book of the missing
`model/orderbook.rs`. -/
structure OrderBook where
  symbol : String
  asks : List BookLevel
  bids : List BookLevel
deriving DecidableEq

/-- Modelled from the spec: `OrderBook::new` creates an empty book for a
symbol (books are "created lazily on first snapshot for a symbol"). -/
def OrderBook.new (symbol : String) : OrderBook := ⟨symbol, [], []⟩

/-- Ask-side order: ascending by price. -/
def askOrd (x y : BookLevel) : Prop := x.price ≤ y.price

/-- Bid-side order: descending by price. -/
def bidOrd (x y : BookLevel) : Prop := y.price ≤ x.price

instance : DecidableRel askOrd :=
  fun x y => inferInstanceAs (Decidable (x.price ≤ y.price))

instance : DecidableRel bidOrd :=
  fun x y => inferInstanceAs (Decidable (y.price ≤ x.price))

instance : IsTotal BookLevel askOrd := ⟨fun x y => le_total x.price y.price⟩

instance : IsTrans BookLevel askOrd := ⟨fun _ _ _ h1 h2 => le_trans h1 h2⟩

instance : IsTotal BookLevel bidOrd := ⟨fun x y => le_total y.price x.price⟩

instance : IsTrans BookLevel bidOrd := ⟨fun _ _ _ h1 h2 => le_trans h2 h1⟩

/-- Zero-size levels are excluded from a stored side. -/
def dropZeroSizes (side : List BookLevel) : List BookLevel :=
  side.filter (fun l => decide (l.size ≠ 0))

/-- A stored ask side: the snapshot's levels, zero sizes dropped, sorted
ascending by price. -/
def normalizeAsks (side : List BookLevel) : List BookLevel :=
  List.insertionSort askOrd (dropZeroSizes side)

/-- A stored bid side: the snapshot's levels, zero sizes dropped, sorted
descending by price. -/
def normalizeBids (side : List BookLevel) : List BookLevel :=
  List.insertionSort bidOrd (dropZeroSizes side)

/-- Modelled from the spec: `OrderBook::apply_snapshot` (section 4.3):
"replace the entire ask side with the given ask levels and the entire bid
side with the given bid levels, each side sorted to its required order,
excluding zero-size levels"; full-replace semantics, no partial merge. -/
def OrderBook.applySnapshot (b : OrderBook) (asks bids : List BookLevel) : OrderBook :=
  { b with asks := normalizeAsks asks, bids := normalizeBids bids }


/-! ## Market-data subscribe commands (src/client/data_client.rs)

`build_subscribe_msg` serializes with `serde_json::json!` followed by
`to_string()`; serde's default map is ordered by key, so the fields
serialize in the order `channel`, `command`, `option`, `symbol`.  The
serialization is embedded at the character-list level with JSON string
escaping of the quote and backslash (control characters, which do not
occur in channel or symbol names, are not modelled).  Rust's
`Vec::<String>::sort` compares UTF-8 bytes; UTF-8 byte order equals
code-point order, so the embedded comparator compares characters. -/

/-- JSON string escaping of one character. -/
def escChar (c : Char) : List Char :=
  if c = '\"' ∨ c = '\\' then ['\\', c] else [c]

/-- JSON string escaping of a text. -/
def escStr (s : List Char) : List Char := s.flatMap escChar

/-- Opening piece of the serialized command, up to the channel value. -/
def chunkA : List Char := "\x7b\"channel\":\"".data

/-- Piece between the channel value and the next key. -/
def midB : List Char := ",\"command\":\"subscribe\",".data

def optKey : List Char := "\"option\":\"".data

def symKey : List Char := "\"symbol\":\"".data

/-- Embedding of `GmocoinDataClient::build_subscribe_msg`
(src/client/data_client.rs, lines 127-139): the serialized subscribe
object, with the `option` field included only when the option is
non-empty (the code passes `None` for a stored empty option and skips an
empty `Some`). -/
def buildSubscribeMsgL (ch sym o : List Char) : List Char :=
  chunkA ++ escStr ch ++ '\"' ::
    (midB ++
      (if o = [] then symKey ++ escStr sym ++ '\"' :: ['\x7d']
       else optKey ++ escStr o ++ '\"' ::
         (',' :: (symKey ++ escStr sym ++ '\"' :: ['\x7d']))))

/-- `build_subscribe_msg` applied to a stored subscription tuple
`(channel, symbol, option)`. -/
def buildSubscribeMsg (t : String × String × String) : String :=
  String.mk (buildSubscribeMsgL t.1.data t.2.1.data t.2.2.data)

/-- Scanner for a serialized JSON string: consumes characters up to the
first unescaped quote, unescaping backslash pairs, and returns the
decoded text together with the remainder after the closing quote.  Used
only to show that `buildSubscribeMsgL` is injective. -/
def scanStr : List Char → Option (List Char × List Char)
  | [] => none
  | c :: rest =>
    if c = '\"' then some ([], rest)
    else if c = '\\' then
      match rest with
      | [] => none
      | d :: rest2 => (scanStr rest2).map (fun p => (d :: p.1, p.2))
    else (scanStr rest).map (fun p => (c :: p.1, p.2))

/-- Strips an expected literal piece from the front of a character list. -/
def dropLit : List Char → List Char → Option (List Char)
  | [], l => some l
  | _ :: _, [] => none
  | p :: ps, c :: cs => if c = p then dropLit ps cs else none

/-- Inverse of `buildSubscribeMsgL`: recovers `(channel, symbol, option)`
from a serialized subscribe command. -/
def parseMsg (l : List Char) : Option (List Char × List Char × List Char) :=
  match dropLit chunkA l with
  | none => none
  | some r1 =>
    match scanStr r1 with
    | none => none
    | some (ch, r2) =>
      match dropLit midB r2 with
      | none => none
      | some r3 =>
        match dropLit optKey r3 with
        | some r4 =>
          match scanStr r4 with
          | none => none
          | some (o, r5) =>
            match dropLit (',' :: symKey) r5 with
            | none => none
            | some r6 =>
              match scanStr r6 with
              | none => none
              | some (sym, _) => some (ch, sym, o)
        | none =>
          match dropLit symKey r3 with
          | none => none
          | some r4 =>
            match scanStr r4 with
            | none => none
            | some (sym, _) => some (ch, sym, [])

/-- Byte-lexicographic comparison of strings as character lists
(`Ord` on Rust `String`). -/
def lexLe : List Char → List Char → Bool
  | [], _ => true
  | _ :: _, [] => false
  | a :: as, b :: bs =>
    if a < b then true
    else if b < a then false
    else lexLe as bs

/-- The order `Vec::<String>::sort` sorts by. -/
def strLe (a b : String) : Prop := lexLe a.data b.data = true

instance : DecidableRel strLe :=
  fun a b => inferInstanceAs (Decidable (lexLe a.data b.data = true))

/-- Consecutive-duplicate removal, as `Vec::dedup`. -/
def dedupConsec : List String → List String
  | [] => []
  | [a] => [a]
  | a :: b :: t => if a = b then dedupConsec (b :: t) else a :: dedupConsec (b :: t)

/-- `to_send.sort(); to_send.dedup();` - sorting followed by
consecutive-duplicate removal (which, on a sorted list, removes all
duplicates). -/
def sortDedup (l : List String) : List String :=
  dedupConsec (List.insertionSort strLe l)

/-- The commands transmitted by the resubscription block executed on a
successful connection (src/client/data_client.rs, lines 164-188): one
serialized subscribe command per stored subscription tuple, plus the
drained outgoing queue, sorted and deduplicated. -/
def resubscribeToSend (subs : List (String × String × String)) (queue : List String) :
    List String :=
  sortDedup (subs.map buildSubscribeMsg ++ queue)

/-- Observable WebSocket-loop events: a rate-limiter `acquire()`, a
command transmission, a pong. -/
inductive WsEv where
  | acquire
  | send (msg : String)
  | pong
deriving DecidableEq

/-- The transmission loop of the resubscription block (lines 189-195):
each command transmission is preceded by `ws_rate_limit.acquire().await`. -/
def resubscribeTrace (subs : List (String × String × String)) (queue : List String) :
    List WsEv :=
  (resubscribeToSend subs queue).flatMap (fun m => [WsEv.acquire, WsEv.send m])

/-- The outgoing-queue drain performed inside the message loop on each
inbound Text frame and each Ping (src/client/data_client.rs, lines
207-215 and 235-244): every queued command is sent immediately, with no
rate-limiter acquisition. -/
def drainQueueTrace (queue : List String) : List WsEv := queue.map WsEv.send

/-- Checks that every transmission in a trace is immediately preceded by
a rate-limiter acquisition. -/
def sendsPaced : List WsEv → Bool
  | [] => true
  | WsEv.send _ :: _ => false
  | WsEv.acquire :: WsEv.send _ :: rest => sendsPaced rest
  | _ :: rest => sendsPaced rest

/-- The market-data client state `subscribe` touches: the `subscriptions`
set (modelled as a duplicate-free list) and the `outgoing` queue. -/
structure DataClientState where
  subscriptions : List (String × String × String)
  outgoing : List String
deriving DecidableEq

/-- `HashSet::insert` on the subscription set. -/
def insertSub (subs : List (String × String × String)) (t : String × String × String) :
    List (String × String × String) :=
  if t ∈ subs then subs else subs ++ [t]

/-- Embedding of `GmocoinDataClient::subscribe` (src/client/data_client.rs,
lines 89-114): the tuple (with the option defaulted to the empty string)
is always inserted into the subscription set; when the client is
connected the serialized command is additionally pushed onto the
outgoing queue. -/
def subscribeOp (st : DataClientState) (connected : Bool)
    (channel symbol : String) (option : Option String) : DataClientState :=
  let t := (channel, symbol, option.getD "")
  { subscriptions := insertSub st.subscriptions t
    outgoing := if connected then st.outgoing ++ [buildSubscribeMsg t] else st.outgoing }


/-! ### Order properties of the command comparator

These support the sorting instances used by `sortDedup` and are stated
before the remaining definitions that need the instances. -/

theorem lexLe_total (a b : List Char) : lexLe a b = true ∨ lexLe b a = true := by
  induction a generalizing b with
  | nil => left; simp [lexLe]
  | cons x xs ih =>
    cases b with
    | nil => right; simp [lexLe]
    | cons y ys =>
      rcases lt_trichotomy x y with hxy | rfl | hxy
      · left; simp [lexLe, hxy]
      · rcases ih ys with h | h
        · left; simp [lexLe, lt_irrefl, h]
        · right; simp [lexLe, lt_irrefl, h]
      · right; simp [lexLe, hxy]

theorem lexLe_trans (a b c : List Char) (h1 : lexLe a b = true)
    (h2 : lexLe b c = true) : lexLe a c = true := by
  induction a generalizing b c with
  | nil => simp [lexLe]
  | cons x xs ih =>
    cases b with
    | nil => simp [lexLe] at h1
    | cons y ys =>
      cases c with
      | nil => simp [lexLe] at h2
      | cons z zs =>
        rcases lt_trichotomy x y with hxy | rfl | hxy
        · rcases lt_trichotomy y z with hyz | rfl | hyz
          · simp [lexLe, lt_trans hxy hyz]
          · simp [lexLe, hxy]
          · simp [lexLe, lt_asymm hyz, hyz] at h2
        · simp only [lexLe, lt_irrefl, if_neg (lt_irrefl x), if_false] at h1
          rcases lt_trichotomy x z with hxz | rfl | hxz
          · simp [lexLe, hxz]
          · simp only [lexLe, if_neg (lt_irrefl x), if_false] at h2 ⊢
            exact ih ys zs h1 h2
          · simp [lexLe, lt_asymm hxz, hxz] at h2
        · simp [lexLe, lt_asymm hxy, hxy] at h1

theorem lexLe_antisymm (a b : List Char) (h1 : lexLe a b = true)
    (h2 : lexLe b a = true) : a = b := by
  induction a generalizing b with
  | nil =>
    cases b with
    | nil => rfl
    | cons y ys => simp [lexLe] at h2
  | cons x xs ih =>
    cases b with
    | nil => simp [lexLe] at h1
    | cons y ys =>
      rcases lt_trichotomy x y with hxy | rfl | hxy
      · simp [lexLe, lt_asymm hxy, hxy] at h2
      · simp only [lexLe, if_neg (lt_irrefl x), if_false] at h1 h2
        rw [ih ys h1 h2]
      · simp [lexLe, lt_asymm hxy, hxy] at h1

instance : IsTotal String strLe := ⟨fun a b => lexLe_total a.data b.data⟩

instance : IsTrans String strLe := ⟨fun a b c => lexLe_trans a.data b.data c.data⟩

instance : IsAntisymm String strLe :=
  ⟨fun a b h1 h2 => by
    have h := lexLe_antisymm a.data b.data h1 h2
    cases a
    cases b
    exact congrArg String.mk h⟩


/-! ## Reconnect-loop state machines

`GmocoinDataClient::ws_loop` (src/client/data_client.rs, lines 141-273)
and `GmocoinExecutionClient::ws_loop` (src/client/execution_client.rs,
lines 304-412) are embedded as step functions over small state machines.
One step is one suspension-to-suspension segment of the loop; the `Bool`
argument is the value of the shared `shutdown` flag at the moments the
loop reads it, and the input chooses the outcome of the segment's
network operation.  Deliberately faithful: `sleep(backoff_sec)` is a
plain uninterruptible sleep (modelled as one `sleeping r` countdown step
per time unit that ignores the shutdown flag, exactly as the `await` on
`tokio::time::sleep` never re-reads the flag). -/

/-- Phases of the market-data reconnect loop: `top` is the loop head
(shutdown check, line 154, then `connect_async`), `streaming` the inner
message loop, `bottom` the shutdown check at line 269 before the backoff
sleep, `sleeping r` the sleep with `r` remaining time units. -/
inductive DPhase where
  | top
  | streaming
  | bottom
  | sleeping (r : Nat)
  | done
deriving DecidableEq

structure DState where
  phase : DPhase
  backoff : Nat
deriving DecidableEq

/-- Environment inputs of one market-data loop segment. -/
inductive DIn where
  | connectOk
  | connectFail
  | frameText
  | streamEnd
  | tick
deriving DecidableEq

/-- Observable events of the market-data loop. -/
inductive DEv where
  | connAttempt
  | connected
  | connFailed
  | sleepStart (d : Nat)
  | terminated
deriving DecidableEq

/-- `backoff_sec = (backoff_sec * 2).min(max_backoff)` with
`max_backoff = 64` (src/client/data_client.rs, line 271). -/
def nextBackoff (b : Nat) : Nat := min (b * 2) 64

/-- One segment of `GmocoinDataClient::ws_loop`.  On a successful
connection the backoff resets to 1 (line 161); a failed attempt, or the
end of an established stream, falls through to the bottom shutdown check
and the backoff sleep; the sleep ignores the shutdown flag, and the
doubling (line 271) happens when the sleep completes. -/
def dataStep (s : DState) (shutdown : Bool) (i : DIn) : DState × List DEv :=
  match s.phase with
  | .top =>
    if shutdown then ({ s with phase := .done }, [.terminated])
    else
      match i with
      | .connectOk => ({ phase := .streaming, backoff := 1 }, [.connAttempt, .connected])
      | _ => ({ s with phase := .bottom }, [.connAttempt, .connFailed])
  | .streaming =>
    if shutdown then ({ s with phase := .done }, [.terminated])
    else
      match i with
      | .streamEnd => ({ s with phase := .bottom }, [])
      | _ => (s, [])
  | .bottom =>
    if shutdown then ({ s with phase := .done }, [.terminated])
    else ({ s with phase := .sleeping s.backoff }, [.sleepStart s.backoff])
  | .sleeping r =>
    match r with
    | 0 => ({ phase := .top, backoff := nextBackoff s.backoff }, [])
    | Nat.succ r2 => ({ s with phase := .sleeping r2 }, [])
  | .done => (s, [])

/-- Driver: runs a step function over a list of (shutdown flag, input)
pairs, concatenating the emitted events. -/
def runMach (step : σ → Bool → ι → σ × List ε) : σ → List (Bool × ι) → σ × List ε
  | s, [] => (s, [])
  | s, (sd, i) :: rest =>
    let r := step s sd i
    let r2 := runMach step r.1 rest
    (r2.1, r.2 ++ r2.2)

def dataRun : DState → List (Bool × DIn) → DState × List DEv := runMach dataStep

/-- The retry delay recorded after each failed connection attempt: the
duration of the sleep that immediately follows the failure. -/
def failDelays : List DEv → List Nat
  | [] => []
  | DEv.connFailed :: DEv.sleepStart d :: rest => d :: failDelays rest
  | _ :: rest => failDelays rest

/-- Inputs driving `n` consecutive failed connection attempts, each
followed by the bottom check and the full backoff sleep. -/
def dataFailInputs : Nat → Nat → List (Bool × DIn)
  | 0, _ => []
  | Nat.succ n, b =>
    (false, DIn.connectFail) :: (false, DIn.tick) ::
      (List.replicate (b + 1) (false, DIn.tick) ++ dataFailInputs n (nextBackoff b))

/-- The sequence of backoff values consumed by `n` consecutive sleeps
under the double-and-cap rule. -/
def doubleCapSeq (cap : Nat) : Nat → Nat → List Nat
  | 0, _ => []
  | Nat.succ n, b => b :: doubleCapSeq cap n (min (b * 2) cap)

/-- Iterated double-and-cap update. -/
def iterMinDouble (cap : Nat) : Nat → Nat → Nat
  | 0, b => b
  | Nat.succ n, b => iterMinDouble cap n (min (b * 2) cap)

/-- Phases of the private-event reconnect loop: `top` is the loop head
(shutdown check, line 314, then `post_ws_auth`), `connecting` the
`connect_async` on the token URL, `streamCheck` the head of the message
loop (shutdown check, line 365, then the token-refresh check, line 371),
`renewing` the `put_ws_auth` call, `receiving` the `ws.next()` wait,
`bottom` the shutdown check at line 408 before the backoff sleep. -/
inductive EPhase where
  | top
  | connecting
  | streamCheck
  | renewing
  | receiving
  | bottom
  | sleeping (r : Nat)
  | done
deriving DecidableEq

/-- Private-event loop state: current phase, backoff seconds, and seconds
elapsed since the last token acquisition or renewal
(`last_refresh.elapsed()`). -/
structure EState where
  phase : EPhase
  backoff : Nat
  elapsed : Nat
deriving DecidableEq

/-- Environment inputs of one private-event loop segment; `frame dt`
delivers a frame after `dt` seconds of waiting. -/
inductive EIn where
  | tokenOk
  | tokenFail
  | connectOk
  | connectFail
  | renewOk
  | renewFail
  | frame (dt : Nat)
  | streamEnd
  | tick
deriving DecidableEq

/-- Observable events of the private-event loop.  `tokenAttempt` and
`renewIssued` stand for the signed POST `post_ws_auth` and the signed PUT
`put_ws_auth` respectively. -/
inductive EEv where
  | tokenAttempt
  | tokenGot
  | tokenFailed
  | connAttempt
  | connected
  | connFailed
  | renewIssued
  | renewExtended
  | renewFailed
  | frameProcessed
  | sleepStart (d : Nat)
  | terminated
deriving DecidableEq

/-- `backoff_sec = (backoff_sec * 2).min(max_backoff)` with
`max_backoff = 60` (src/client/execution_client.rs, lines 322 and 410). -/
def nextBackoffE (b : Nat) : Nat := min (b * 2) 60

/-- One segment of `GmocoinExecutionClient::ws_loop`.  Token-acquisition
failure sleeps the backoff inline and loops without attempting a
connection (lines 319-324); a successful connection resets the backoff
to 5 and the refresh clock to 0 (lines 343, 360); the refresh check runs
before each `ws.next()` and issues the renewal once 900 seconds have
elapsed (line 371); a renewal failure breaks out of the message loop
(line 374). -/
def execStep (s : EState) (shutdown : Bool) (i : EIn) : EState × List EEv :=
  match s.phase with
  | .top =>
    if shutdown then ({ s with phase := .done }, [.terminated])
    else
      match i with
      | .tokenOk => ({ s with phase := .connecting }, [.tokenAttempt, .tokenGot])
      | _ => ({ s with phase := .sleeping s.backoff },
          [.tokenAttempt, .tokenFailed, .sleepStart s.backoff])
  | .connecting =>
    match i with
    | .connectOk => ({ phase := .streamCheck, backoff := 5, elapsed := 0 },
        [.connAttempt, .connected])
    | _ => ({ s with phase := .bottom }, [.connAttempt, .connFailed])
  | .streamCheck =>
    if shutdown then ({ s with phase := .done }, [.terminated])
    else if 900 ≤ s.elapsed then ({ s with phase := .renewing }, [.renewIssued])
    else ({ s with phase := .receiving }, [])
  | .renewing =>
    match i with
    | .renewOk => ({ s with phase := .receiving, elapsed := 0 }, [.renewExtended])
    | _ => ({ s with phase := .bottom }, [.renewFailed])
  | .receiving =>
    match i with
    | .frame dt => ({ s with phase := .streamCheck, elapsed := s.elapsed + dt },
        [.frameProcessed])
    | .streamEnd => ({ s with phase := .bottom }, [])
    | _ => (s, [])
  | .bottom =>
    if shutdown then ({ s with phase := .done }, [.terminated])
    else ({ s with phase := .sleeping s.backoff }, [.sleepStart s.backoff])
  | .sleeping r =>
    match r with
    | 0 => ({ s with phase := .top, backoff := nextBackoffE s.backoff }, [])
    | Nat.succ r2 => ({ s with phase := .sleeping r2 }, [])
  | .done => (s, [])

def execRun : EState → List (Bool × EIn) → EState × List EEv := runMach execStep

/-- Inputs driving `n` consecutive token-acquisition failures, each
followed by the inline backoff sleep. -/
def execFailInputs : Nat → Nat → List (Bool × EIn)
  | 0, _ => []
  | Nat.succ n, b =>
    (false, EIn.tokenFail) ::
      (List.replicate (b + 1) (false, EIn.tick) ++ execFailInputs n (nextBackoffE b))

/-- The backoff delay recorded after each failed token acquisition. -/
def tokenDelays : List EEv → List Nat
  | [] => []
  | EEv.tokenFailed :: EEv.sleepStart d :: rest => d :: tokenDelays rest
  | _ :: rest => tokenDelays rest

/-- True when no frame is processed before a fresh token acquisition
succeeds. -/
def noFrameBeforeToken : List EEv → Bool
  | [] => true
  | EEv.frameProcessed :: _ => false
  | EEv.tokenGot :: _ => true
  | _ :: rest => noFrameBeforeToken rest

/-- Dormant phases of the private-event loop: no stream is open. -/
def isDormant (p : EPhase) : Prop :=
  p = EPhase.top ∨ p = EPhase.bottom ∨ p = EPhase.done ∨ ∃ r, p = EPhase.sleeping r

/-- The body `serde_json::json!({"token": token}).to_string()` of the
renewal request (tokens contain no characters needing JSON escapes). -/
def putWsAuthBody (token : String) : String :=
  "\x7b\"token\":\"" ++ token ++ "\"\x7d"

/-- Embedding of `GmocoinRestClient::put_ws_auth`: the signed PUT to
`/v1/ws-auth` issued by the renewal check. -/
def putWsAuthRequest (apiKey apiSecret timestamp token : String) : HttpRequest :=
  privateRequestRequest apiKey apiSecret timestamp "PUT" "/v1/ws-auth" (putWsAuthBody token)


/-! ## Market-data DTOs and dispatch (src/model/market_data.rs,
src/client/data_client.rs, dispatch_message) -/

/-- `Ticker` (src/model/market_data.rs): all fields required strings. -/
structure Ticker where
  ask : String
  bid : String
  high : String
  low : String
  last : String
  symbol : String
  timestamp : String
  volume : String
deriving DecidableEq

/-- `Trade` (src/model/market_data.rs): `symbol` is optional. -/
structure Trade where
  price : String
  side : String
  size : String
  timestamp : String
  symbol : Option String
deriving DecidableEq

/-- `DepthEntry` (src/model/market_data.rs). -/
structure DepthEntry where
  price : String
  size : String
deriving DecidableEq

/-- `Depth` (src/model/market_data.rs): `timestamp` has `serde(default)`. -/
structure Depth where
  asks : List DepthEntry
  bids : List DepthEntry
  symbol : String
  timestamp : String
deriving DecidableEq

/-- Required string field, as serde decodes a `String` field. -/
def getStrField (v : Json) (k : String) : Option String := (v.get k).bind Json.asStr

/-- Optional string field, as serde decodes an `Option<String>` field:
absent or null gives `none`; a present non-string fails the decode. -/
def getOptStr (v : Json) (k : String) : Option (Option String) :=
  match v.get k with
  | none => some none
  | some Json.null => some none
  | some j => j.asStr.map some

/-- Optional u64 field, as serde decodes an `Option<u64>` field. -/
def getOptU64 (v : Json) (k : String) : Option (Option Nat) :=
  match v.get k with
  | none => some none
  | some Json.null => some none
  | some j => j.asU64.map some

/-- serde decode of `Ticker`. -/
def decodeTicker (v : Json) : Option Ticker := do
  let ask ← getStrField v "ask"
  let bid ← getStrField v "bid"
  let high ← getStrField v "high"
  let low ← getStrField v "low"
  let last ← getStrField v "last"
  let symbol ← getStrField v "symbol"
  let timestamp ← getStrField v "timestamp"
  let volume ← getStrField v "volume"
  pure ⟨ask, bid, high, low, last, symbol, timestamp, volume⟩

/-- serde decode of `Trade`. -/
def decodeTrade (v : Json) : Option Trade := do
  let price ← getStrField v "price"
  let side ← getStrField v "side"
  let size ← getStrField v "size"
  let timestamp ← getStrField v "timestamp"
  let symbol ← getOptStr v "symbol"
  pure ⟨price, side, size, timestamp, symbol⟩

/-- serde decode of one `DepthEntry`. -/
def decodeEntry (j : Json) : Option DepthEntry := do
  let price ← getStrField j "price"
  let size ← getStrField j "size"
  pure ⟨price, size⟩

/-- serde decode of a `Vec<DepthEntry>`. -/
def decodeEntries : List Json → Option (List DepthEntry)
  | [] => some []
  | j :: t => do
    let e ← decodeEntry j
    let rest ← decodeEntries t
    pure (e :: rest)

/-- serde decode of `Depth` (missing `timestamp` defaults to ""). -/
def decodeDepth (v : Json) : Option Depth := do
  let asksJ ← (v.get "asks").bind Json.asArr
  let asks ← decodeEntries asksJ
  let bidsJ ← (v.get "bids").bind Json.asArr
  let bids ← decodeEntries bidsJ
  let symbol ← getStrField v "symbol"
  let timestamp ← match v.get "timestamp" with
    | none => some ""
    | some j => j.asStr
  pure ⟨asks, bids, symbol, timestamp⟩

/-- Modelled from the spec: numeric reading of the venue's decimal
strings (performed inside the missing `model/orderbook.rs`): optional
leading minus, digits, at most one decimal point. -/
def digitsVal (l : List Char) : Option Nat :=
  l.foldl (fun acc c =>
    acc.bind (fun n => if c.isDigit then some (n * 10 + (c.toNat - 48)) else none))
    (some 0)

/-- Modelled from the spec: decimal string to rational. -/
def ratOfDecimal (s : String) : Option Rat :=
  let neg := s.startsWith "-"
  let body := if neg then s.drop 1 else s
  match body.splitOn "." with
  | [i] =>
    if i.isEmpty then none
    else (digitsVal i.data).map (fun n => if neg then -(n : Rat) else (n : Rat))
  | [i, f] =>
    if i.isEmpty then none
    else do
      let n ← digitsVal i.data
      let fr ← digitsVal f.data
      let v : Rat := (n : Rat) + (fr : Rat) / (10 : Rat) ^ f.data.length
      pure (if neg then -v else v)
  | _ => none

/-- Modelled from the spec: a snapshot level from a depth entry; entries
whose price or size does not read as a decimal are dropped. -/
def levelOfEntry (e : DepthEntry) : Option BookLevel := do
  let price ← ratOfDecimal e.price
  let size ← ratOfDecimal e.size
  pure ⟨price, size⟩

/-- Events dispatched to the registered market-data callback. -/
inductive DataEv where
  | dispatchTicker (t : Ticker)
  | dispatchBook (b : OrderBook)
  | dispatchTrade (tr : Trade)
deriving DecidableEq

/-- `HashMap::insert` on the per-symbol book map. -/
def insertBook (books : List (String × OrderBook)) (sym : String) (b : OrderBook) :
    List (String × OrderBook) :=
  (books.filter (fun p => decide (p.1 ≠ sym))) ++ [(sym, b)]

/-- Embedding of `GmocoinDataClient::dispatch_message`
(src/client/data_client.rs, lines 275-326): the channel selects the
decoder and dispatch target; the `orderbooks` branch routes through the
book engine (`entry().or_insert(OrderBook::new)` then `apply_snapshot`,
then the clone is dispatched); unrecognized channels are dropped
silently; a failed decode drops the frame. -/
def dataDispatchMessage (channel : String) (val : Json)
    (books : List (String × OrderBook)) : List (String × OrderBook) × List DataEv :=
  if channel = "ticker" then
    match decodeTicker val with
    | some t => (books, [DataEv.dispatchTicker t])
    | none => (books, [])
  else if channel = "orderbooks" then
    match decodeDepth val with
    | some d =>
      let book0 := (books.lookup d.symbol).getD (OrderBook.new d.symbol)
      let newBook := book0.applySnapshot
        (d.asks.filterMap levelOfEntry) (d.bids.filterMap levelOfEntry)
      (insertBook books d.symbol newBook, [DataEv.dispatchBook newBook])
    | none => (books, [])
  else if channel = "trades" then
    match decodeTrade val with
    | some tr => (books, [DataEv.dispatchTrade tr])
    | none => (books, [])
  else (books, [])

/-- Embedding of the inbound-Text handling in the market-data message
loop (src/client/data_client.rs, lines 217-232): unparseable frames and
frames with an `error` field are dropped; the channel is read with
`as_str` and defaulted to the empty string; an empty channel is dropped,
otherwise the frame goes to `dispatch_message`. -/
def dataHandleText (parsed : Option Json) (books : List (String × OrderBook)) :
    List (String × OrderBook) × List DataEv :=
  match parsed with
  | none => (books, [])
  | some val =>
    if (val.get "error").isSome then (books, [])
    else
      let channel := ((val.get "channel").bind Json.asStr).getD ""
      if channel = "" then (books, [])
      else dataDispatchMessage channel val books

/-! ## Private-event message processing
(src/model/order.rs, src/client/execution_client.rs, process_ws_message) -/

/-- `Order` (src/model/order.rs). -/
structure Order where
  order_id : Nat
  root_order_id : Option Nat
  symbol : String
  side : String
  execution_type : String
  settle_type : Option String
  size : String
  executed_size : String
  price : Option String
  losscut_price : Option String
  status : String
  time_in_force : Option String
  timestamp : String
deriving DecidableEq

/-- serde decode of `Order` (field renames as in src/model/order.rs). -/
def decodeOrder (v : Json) : Option Order := do
  let oid ← (v.get "orderId").bind Json.asU64
  let root ← getOptU64 v "rootOrderId"
  let symbol ← getStrField v "symbol"
  let side ← getStrField v "side"
  let etype ← getStrField v "executionType"
  let stype ← getOptStr v "settleType"
  let size ← getStrField v "size"
  let esize ← getStrField v "executedSize"
  let price ← getOptStr v "price"
  let lp ← getOptStr v "losscutPrice"
  let status ← getStrField v "status"
  let tif ← getOptStr v "timeInForce"
  let ts ← getStrField v "timestamp"
  pure ⟨oid, root, symbol, side, etype, stype, size, esize, price, lp, status, tif, ts⟩

/-- Ordered observable effects of `process_ws_message`: the cache upsert
happens before the callback dispatch. -/
inductive ExecEv where
  | cacheUpsert (orderId : Nat) (o : Order)
  | dispatch (eventType : String) (raw : String)
deriving DecidableEq

/-- `HashMap::insert` on the local order cache, keyed by exchange order
id: replaces any previous record for the id. -/
def upsertOrder (cache : List (Nat × Order)) (o : Order) : List (Nat × Order) :=
  (cache.filter (fun p => decide (p.1 ≠ o.order_id))) ++ [(o.order_id, o)]

/-- The cache entries stored under a given order id. -/
def entriesFor (cache : List (Nat × Order)) (k : Nat) : List (Nat × Order) :=
  cache.filter (fun p => decide (p.1 = k))

/-- The channel-to-event-kind mapping of `process_ws_message`
(src/client/execution_client.rs, lines 428-434). -/
def channelEventType (channel : String) : String :=
  if channel = "executionEvents" then "ExecutionUpdate"
  else if channel = "orderEvents" then "OrderUpdate"
  else if channel = "positionEvents" then "PositionUpdate"
  else if channel = "positionSummaryEvents" then "PositionSummaryUpdate"
  else "Unknown"

/-- Embedding of `GmocoinExecutionClient::process_ws_message`
(src/client/execution_client.rs, lines 414-455).  `raw` is the frame
text, `parsed` its serde parse (`none` drops the frame); frames with an
`error` field are dropped; the channel is read with `as_str` and
defaulted to "unknown"; for `OrderUpdate` frames that decode into an
`Order`, the record is upserted into the cache keyed by `orderId` before
the callback dispatch; the registered callback is then invoked with the
event kind and the raw text in every remaining case. -/
def processWsMessage (raw : String) (parsed : Option Json)
    (cache : List (Nat × Order)) : List (Nat × Order) × List ExecEv :=
  match parsed with
  | none => (cache, [])
  | some val =>
    if (val.get "error").isSome then (cache, [])
    else
      let channel := ((val.get "channel").bind Json.asStr).getD "unknown"
      let eventType := channelEventType channel
      let cachePre :=
        if eventType = "OrderUpdate" then
          match decodeOrder val with
          | some o => (upsertOrder cache o, [ExecEv.cacheUpsert o.order_id o])
          | none => (cache, [])
        else (cache, [])
      (cachePre.1, cachePre.2 ++ [ExecEv.dispatch eventType raw])

/-! ## Theorems -/






example :
    parseResponse Json.asI64 "b"
      (some (.obj [("status", .num 0), ("data", .num 7)])) = .ok 7 := by
  rfl

example :
    parseResponse Json.asI64 "b"
      (some (.obj [("status", .num 5),
        ("messages", .arr [.obj [("message_string", .str "bad key")],
                           .obj [("message_string", .str "bad sign")]])])) =
      .error (.exchangeError 5 "bad key; bad sign") := by
  rfl

example :
    parseResponse Json.asI64 "body"
      (some (.obj [("status", .num 0)])) =
      .error (.unknown "status=0 but no data. Body: body") := by
  rfl

example :
    hexEncode (sha256Bytes (strBytes "abc")) =
      "ba7816bf8f01cfea414140de5dae2223b00361a396177a9cb410ff61f20015ad" := by
  decide

example :
    hexEncode (hmacSha256 (strBytes "key")
        (strBytes "The quick brown fox jumps over the lazy dog")) =
      "f7bc83f430538424b13298e6aa6fb143ef4d59a14946175997479dbc2d1a3cd8" := by
  decide

/-- C1, counterexample.  The claim states that the decoded data is
returned exactly when the envelope's `status` equals 0; but the code
reads the status as an `i64` and casts it `as i32`, so an envelope with
the non-zero status `2^32` (representable in JSON and in an `i64`)
truncates to 0 and the data is returned as a success. -/
theorem parse_response_status_truncation_cex :
    parseResponse Json.asI64 ""
      (some (.obj [("status", .num (2 ^ 32)), ("data", .num 7)])) = .ok 7
    ∧ (2 ^ 32 : Int) ≠ 0 :=
  ⟨rfl, by decide⟩

/-- C1, amended.  For every REST response body (every primitive feeds its
body through `parse_response`): with the envelope status read as an i64
(default -1) and truncated to an i32 (`envStatus`), the decoded data is
returned exactly when the truncated status equals 0, a `data` field is
present and the data decodes; a non-zero truncated status yields
`ExchangeError{status, messages}` with `messages` the semicolon-joined
`message_string` fields, or a fallback placeholder containing the body
when the `messages` array is absent or unparseable (`envMessages`); a
zero truncated status without `data` yields an `Unknown` error naming the
body, never a silently defaulted value; a zero status with undecodable
`data` also yields an `Unknown` error; an unparseable body yields a
parse error. -/
theorem parse_response_branches (dec : Json → Option α) (text : String) (val : Json) :
    (envStatus val = 0 → ∀ d t, val.get "data" = some d → dec d = some t →
      parseResponse dec text (some val) = .ok t)
    ∧ (envStatus val = 0 → val.get "data" = none →
      parseResponse dec text (some val) =
        .error (.unknown ("status=0 but no data. Body: " ++ text)))
    ∧ (envStatus val = 0 → ∀ d, val.get "data" = some d → dec d = none →
      parseResponse dec text (some val) = .error (.unknown "Parse Error on data"))
    ∧ (envStatus val ≠ 0 →
      parseResponse dec text (some val) =
        .error (.exchangeError (envStatus val) (envMessages text val)))
    ∧ parseResponse dec text none = .error .parseErr := by
  refine ⟨?_, ?_, ?_, ?_, rfl⟩
  · intro h0 d t hd hdec
    simp [parseResponse, h0, hd, hdec]
  · intro h0 hd
    simp [parseResponse, h0, hd]
  · intro h0 d hd hdec
    simp [parseResponse, h0, hd, hdec]
  · intro h0
    simp [parseResponse, h0]

/-- C1, witness: the amended theorem applied to one success envelope and
one failure envelope. -/
theorem parse_response_branches_witness :
    parseResponse Json.asI64 "w"
      (some (Json.obj [("status", Json.num 0), ("data", Json.num 3)])) = .ok 3
    ∧ parseResponse Json.asI64 "w"
      (some (Json.obj [("status", Json.num 4)])) =
        .error (.exchangeError 4 "Unknown error. Body: w") := by
  constructor
  · exact (parse_response_branches Json.asI64 "w"
      (Json.obj [("status", Json.num 0), ("data", Json.num 3)])).1
      (by decide) (Json.num 3) 3 rfl rfl
  · exact (parse_response_branches Json.asI64 "w"
      (Json.obj [("status", Json.num 4)])).2.2.2.1 (by decide)

/-- C2.  For every private GET request, the signed text is
`timestamp ++ "GET" ++ path` and the query parameters are excluded from
the signed text (the API-SIGN header is identical for any two query
lists); for every private POST/PUT/DELETE request via `private_request`,
the signed text is `timestamp ++ method ++ path ++ body`; the API-SIGN
header carries the hex-encoded HMAC-SHA256 of that text keyed by the API
secret, alongside the API-KEY and API-TIMESTAMP (millisecond timestamp)
headers.  Determinism for fixed key/secret/timestamp/method/path/body is
inherent: the construction is a pure function of those inputs. -/
theorem signing_spec (apiKey apiSecret timestamp method endpoint body : String)
    (query : List (String × String)) :
    ((privateGetRequest apiKey apiSecret timestamp endpoint query).headers.lookup "API-SIGN"
      = some (hexEncode (hmacSha256 (strBytes apiSecret)
          (strBytes (timestamp ++ "GET" ++ endpoint)))))
    ∧ (∀ q1 q2 : List (String × String),
        (privateGetRequest apiKey apiSecret timestamp endpoint q1).headers =
          (privateGetRequest apiKey apiSecret timestamp endpoint q2).headers)
    ∧ ((privateGetRequest apiKey apiSecret timestamp endpoint query).query = query)
    ∧ ((privateRequestRequest apiKey apiSecret timestamp method endpoint body).headers.lookup
        "API-SIGN"
      = some (hexEncode (hmacSha256 (strBytes apiSecret)
          (strBytes (timestamp ++ method ++ endpoint ++ body)))))
    ∧ ((privateGetRequest apiKey apiSecret timestamp endpoint query).headers.lookup "API-KEY"
        = some apiKey)
    ∧ ((privateGetRequest apiKey apiSecret timestamp endpoint query).headers.lookup
        "API-TIMESTAMP" = some timestamp)
    ∧ ((privateRequestRequest apiKey apiSecret timestamp method endpoint body).headers.lookup
        "API-KEY" = some apiKey)
    ∧ ((privateRequestRequest apiKey apiSecret timestamp method endpoint body).headers.lookup
        "API-TIMESTAMP" = some timestamp) :=
  ⟨rfl, fun _ _ => rfl, rfl, rfl, rfl, rfl, rfl, rfl⟩

/-- C3 (spec-modelled: `model/orderbook.rs` is declared but absent from
`src/`).  For every book and every snapshot whose sides have pairwise
distinct prices: `applySnapshot` replaces the entire ask side and the
entire bid side with the given levels; afterwards each side is strictly
sorted (asks ascending, bids descending by price, hence unique by price),
every zero-size level is absent, membership is exactly the snapshot's
non-zero levels (independent of the previous book contents), and a second
snapshot fully replaces the first. -/
theorem applySnapshot_replaces_and_normalizes (b : OrderBook)
    (asks bids : List BookLevel)
    (ha : asks.Pairwise (fun x y => x.price ≠ y.price))
    (hb : bids.Pairwise (fun x y => x.price ≠ y.price)) :
    ((b.applySnapshot asks bids).asks.Pairwise (fun x y => x.price < y.price))
    ∧ ((b.applySnapshot asks bids).bids.Pairwise (fun x y => y.price < x.price))
    ∧ (∀ l ∈ (b.applySnapshot asks bids).asks, l.size ≠ 0)
    ∧ (∀ l ∈ (b.applySnapshot asks bids).bids, l.size ≠ 0)
    ∧ (∀ l, l ∈ (b.applySnapshot asks bids).asks ↔ l ∈ asks ∧ l.size ≠ 0)
    ∧ (∀ l, l ∈ (b.applySnapshot asks bids).bids ↔ l ∈ bids ∧ l.size ≠ 0)
    ∧ (∀ (b0 : OrderBook) (a1 b1 : List BookLevel),
        (b0.applySnapshot a1 b1).applySnapshot asks bids = b0.applySnapshot asks bids)
    ∧ (b.applySnapshot asks bids).symbol = b.symbol := by
  have hmemA : ∀ l, l ∈ normalizeAsks asks ↔ l ∈ asks ∧ l.size ≠ 0 := by
    intro l
    unfold normalizeAsks dropZeroSizes
    rw [List.mem_insertionSort, List.mem_filter]
    simp
  have hmemB : ∀ l, l ∈ normalizeBids bids ↔ l ∈ bids ∧ l.size ≠ 0 := by
    intro l
    unfold normalizeBids dropZeroSizes
    rw [List.mem_insertionSort, List.mem_filter]
    simp
  have hneA : (normalizeAsks asks).Pairwise (fun x y => x.price ≠ y.price) := by
    have h1 : (dropZeroSizes asks).Pairwise (fun x y => x.price ≠ y.price) :=
      List.Pairwise.sublist (List.filter_sublist _) ha
    exact ((List.perm_insertionSort askOrd (dropZeroSizes asks)).pairwise_iff
      (fun h => Ne.symm h)).mpr h1
  have hneB : (normalizeBids bids).Pairwise (fun x y => x.price ≠ y.price) := by
    have h1 : (dropZeroSizes bids).Pairwise (fun x y => x.price ≠ y.price) :=
      List.Pairwise.sublist (List.filter_sublist _) hb
    exact ((List.perm_insertionSort bidOrd (dropZeroSizes bids)).pairwise_iff
      (fun h => Ne.symm h)).mpr h1
  refine ⟨?_, ?_, ?_, ?_, hmemA, hmemB, fun b0 a1 b1 => rfl, rfl⟩
  · exact ((List.sorted_insertionSort askOrd (dropZeroSizes asks)).and hneA).imp
      (fun h => lt_of_le_of_ne h.1 h.2)
  · exact ((List.sorted_insertionSort bidOrd (dropZeroSizes bids)).and hneB).imp
      (fun h => lt_of_le_of_ne h.1 (fun e => h.2 e.symm))
  · intro l hl
    exact ((hmemA l).mp hl).2
  · intro l hl
    exact ((hmemB l).mp hl).2

/-- C3, witness: the spec's test vector.  Asks `[(100,1),(101,0),(99,2)]`
and bids `[(98,3)]` yield the ask side `[(99,2),(100,1)]` (ascending,
zero-size level dropped) and the bid side `[(98,3)]`; a second snapshot
applied on top of a first one equals the second snapshot applied to the
fresh book. -/
theorem applySnapshot_spec_vector :
    ((OrderBook.new "BTC_JPY").applySnapshot
        [⟨100, 1⟩, ⟨101, 0⟩, ⟨99, 2⟩] [⟨98, 3⟩]).asks.Pairwise
      (fun x y => x.price < y.price)
    ∧ ((OrderBook.new "BTC_JPY").applySnapshot
        [⟨100, 1⟩, ⟨101, 0⟩, ⟨99, 2⟩] [⟨98, 3⟩]).asks = [⟨99, 2⟩, ⟨100, 1⟩]
    ∧ ((OrderBook.new "BTC_JPY").applySnapshot
        [⟨100, 1⟩, ⟨101, 0⟩, ⟨99, 2⟩] [⟨98, 3⟩]).bids = [⟨98, 3⟩]
    ∧ (((OrderBook.new "BTC_JPY").applySnapshot
          [⟨100, 1⟩, ⟨101, 0⟩, ⟨99, 2⟩] [⟨98, 3⟩]).applySnapshot
        [⟨50, 1⟩] [] =
      (OrderBook.new "BTC_JPY").applySnapshot [⟨50, 1⟩] []) := by
  refine ⟨(applySnapshot_replaces_and_normalizes (OrderBook.new "BTC_JPY")
    [⟨100, 1⟩, ⟨101, 0⟩, ⟨99, 2⟩] [⟨98, 3⟩] (by decide) (by decide)).1,
    by decide, by decide,
    (applySnapshot_replaces_and_normalizes (OrderBook.new "BTC_JPY")
      [⟨50, 1⟩] [] (by decide) (by decide)).2.2.2.2.2.2.1
      (OrderBook.new "BTC_JPY") [⟨100, 1⟩, ⟨101, 0⟩, ⟨99, 2⟩] [⟨98, 3⟩]⟩

/-! ### Injectivity of the serialized subscribe command -/

theorem scanStr_escStr (s rest : List Char) :
    scanStr (escStr s ++ '\"' :: rest) = some (s, rest) := by
  induction s with
  | nil =>
    show scanStr ('\"' :: rest) = some ([], rest)
    rw [scanStr.eq_def]
    rfl
  | cons c t ih =>
    by_cases h : c = '\"' ∨ c = '\\'
    · have he : escStr (c :: t) = '\\' :: c :: escStr t := by
        simp only [escStr, List.flatMap_cons]
        rw [escChar, if_pos h]
        rfl
      rw [he, List.cons_append, List.cons_append, scanStr.eq_def]
      simp only [if_neg (by decide : ¬ ('\\' : Char) = '\"'), if_pos rfl]
      rw [ih]
      rfl
    · push_neg at h
      have he : escStr (c :: t) = c :: escStr t := by
        simp only [escStr, List.flatMap_cons]
        rw [escChar, if_neg (by tauto)]
        rfl
      rw [he, List.cons_append, scanStr.eq_def]
      simp only [if_neg h.1, if_neg h.2]
      rw [ih]
      rfl

theorem dropLit_append (pat rest : List Char) : dropLit pat (pat ++ rest) = some rest := by
  induction pat with
  | nil => rfl
  | cons p ps ih => simp [dropLit, ih]

theorem dropLit_optKey_symKey (t : List Char) : dropLit optKey (symKey ++ t) = none := rfl

theorem parseMsg_build (ch sym o : List Char) :
    parseMsg (buildSubscribeMsgL ch sym o) = some (ch, sym, o) := by
  by_cases ho : o = []
  · subst ho
    have hb : buildSubscribeMsgL ch sym [] =
        chunkA ++ (escStr ch ++ '\"' ::
          (midB ++ (symKey ++ (escStr sym ++ '\"' :: ['\x7d'])))) := by
      rw [buildSubscribeMsgL, if_pos rfl]
      simp [List.append_assoc]
    rw [hb, parseMsg, dropLit_append]
    simp only [scanStr_escStr, dropLit_append, dropLit_optKey_symKey]
  · have hb : buildSubscribeMsgL ch sym o =
        chunkA ++ (escStr ch ++ '\"' ::
          (midB ++ (optKey ++ (escStr o ++ '\"' ::
            (',' :: (symKey ++ (escStr sym ++ '\"' :: ['\x7d']))))))) := by
      rw [buildSubscribeMsgL, if_neg ho]
      simp [List.append_assoc]
    rw [hb, parseMsg, dropLit_append]
    have hcomma : dropLit (',' :: symKey) (',' ::
        (symKey ++ (escStr sym ++ '\"' :: ['\x7d']))) =
        some (escStr sym ++ '\"' :: ['\x7d']) := by
      show (if ',' = ',' then dropLit symKey (symKey ++ (escStr sym ++ '\"' :: ['\x7d']))
        else none) = some (escStr sym ++ '\"' :: ['\x7d'])
      rw [if_pos rfl, dropLit_append]
    simp only [scanStr_escStr, dropLit_append, hcomma]

theorem stringDataInj {s t : String} (h : s.data = t.data) : s = t := by
  cases s
  cases t
  exact congrArg String.mk h

theorem buildSubscribeMsg_inj (t1 t2 : String × String × String)
    (h : buildSubscribeMsg t1 = buildSubscribeMsg t2) : t1 = t2 := by
  obtain ⟨a1, b1, c1⟩ := t1
  obtain ⟨a2, b2, c2⟩ := t2
  have hd : buildSubscribeMsgL a1.data b1.data c1.data =
      buildSubscribeMsgL a2.data b2.data c2.data := by
    have h2 := congrArg String.data h
    simpa [buildSubscribeMsg] using h2
  have h1 := parseMsg_build a1.data b1.data c1.data
  rw [hd, parseMsg_build] at h1
  have h2 := Option.some.inj h1
  have e1 : a2.data = a1.data := congrArg (fun p => p.1) h2
  have e2 : b2.data = b1.data := congrArg (fun p => p.2.1) h2
  have e3 : c2.data = c1.data := congrArg (fun p => p.2.2) h2
  rw [stringDataInj e1, stringDataInj e2, stringDataInj e3]

/-! ### Sort-dedup support lemmas -/

theorem dedupConsec_sublist (l : List String) : (dedupConsec l).Sublist l := by
  induction l with
  | nil => simp [dedupConsec]
  | cons x t ih =>
    cases t with
    | nil => simp [dedupConsec]
    | cons y t2 =>
      by_cases h : x = y
      · rw [dedupConsec, if_pos h]
        exact ih.cons x
      · rw [dedupConsec, if_neg h]
        exact ih.cons₂ x

theorem mem_dedupConsec (l : List String) (a : String) : a ∈ dedupConsec l ↔ a ∈ l := by
  induction l with
  | nil => simp [dedupConsec]
  | cons x t ih =>
    cases t with
    | nil => simp [dedupConsec]
    | cons y t2 =>
      by_cases h : x = y
      · subst h
        rw [dedupConsec, if_pos rfl]
        rw [ih]
        simp
      · rw [dedupConsec, if_neg h]
        simp only [List.mem_cons] at ih ⊢
        rw [ih]

theorem dedupConsec_nodup (l : List String) (hs : l.Sorted strLe) :
    (dedupConsec l).Nodup := by
  induction l with
  | nil => simp [dedupConsec]
  | cons x t ih =>
    cases t with
    | nil => simp [dedupConsec]
    | cons y t2 =>
      have hs2 : (y :: t2).Sorted strLe := hs.of_cons
      by_cases h : x = y
      · rw [dedupConsec, if_pos h]
        exact ih hs2
      · rw [dedupConsec, if_neg h]
        refine List.nodup_cons.mpr ⟨?_, ih hs2⟩
        rw [mem_dedupConsec]
        intro hmem
        rcases List.mem_cons.mp hmem with he | hmem2
        · exact h he
        · have hyx : strLe y x := List.rel_of_sorted_cons hs2 x hmem2
          have hxy : strLe x y := List.rel_of_sorted_cons hs y (List.mem_cons_self y t2)
          exact h (antisymm hxy hyx)

theorem sortDedup_sorted (l : List String) : (sortDedup l).Sorted strLe :=
  List.Pairwise.sublist (dedupConsec_sublist _) (List.sorted_insertionSort strLe l)

theorem sortDedup_nodup (l : List String) : (sortDedup l).Nodup :=
  dedupConsec_nodup _ (List.sorted_insertionSort strLe l)

theorem mem_sortDedup (l : List String) (a : String) : a ∈ sortDedup l ↔ a ∈ l := by
  rw [sortDedup, mem_dedupConsec, List.mem_insertionSort]

theorem sendsPaced_flatMap (msgs : List String) :
    sendsPaced (msgs.flatMap (fun m => [WsEv.acquire, WsEv.send m])) = true := by
  induction msgs with
  | nil => rfl
  | cons m t ih => simpa [sendsPaced] using ih

/-! ### Claim theorems for the resubscription and queue-drain paths -/

/-- C4.  On every successful market-data connection, with the stored
subscription set `subs` (duplicate-free, as a `HashSet`) and a drained
queue whose entries were built by `subscribe` from stored tuples, the
commands transmitted during resubscription are sorted, duplicate-free,
exactly the serialized commands of the union of `subs` and the queue, and
number exactly one per unique subscription tuple; every transmission is
immediately preceded by a rate-limiter acquisition, and the output is
independent of the `HashSet` iteration order. -/
theorem resubscribe_dedup_sorted_paced
    (subs : List (String × String × String)) (queue : List String)
    (hnd : subs.Nodup)
    (hq : ∀ m ∈ queue, ∃ t ∈ subs, buildSubscribeMsg t = m) :
    (resubscribeToSend subs queue).Sorted strLe
    ∧ (resubscribeToSend subs queue).Nodup
    ∧ (∀ m, m ∈ resubscribeToSend subs queue ↔
        (∃ t ∈ subs, buildSubscribeMsg t = m) ∨ m ∈ queue)
    ∧ (resubscribeToSend subs queue).length = subs.length
    ∧ sendsPaced (resubscribeTrace subs queue) = true
    ∧ (∀ m, WsEv.send m ∈ resubscribeTrace subs queue ↔ m ∈ resubscribeToSend subs queue)
    ∧ (∀ subs2, subs2.Perm subs → resubscribeToSend subs2 queue = resubscribeToSend subs queue) := by
  have hmem : ∀ m, m ∈ resubscribeToSend subs queue ↔
      (∃ t ∈ subs, buildSubscribeMsg t = m) ∨ m ∈ queue := by
    intro m
    rw [resubscribeToSend, mem_sortDedup]
    simp
  have hmem2 : ∀ m, m ∈ resubscribeToSend subs queue ↔ m ∈ subs.map buildSubscribeMsg := by
    intro m
    rw [hmem]
    simp only [List.mem_map]
    constructor
    · rintro (⟨t, ht, rfl⟩ | hmq)
      · exact ⟨t, ht, rfl⟩
      · obtain ⟨t, ht, rfl⟩ := hq m hmq
        exact ⟨t, ht, rfl⟩
    · rintro ⟨t, ht, rfl⟩
      exact Or.inl ⟨t, ht, rfl⟩
  have hlen : (resubscribeToSend subs queue).length = subs.length := by
    have hmapnd : (subs.map buildSubscribeMsg).Nodup :=
      hnd.map (fun a b hab => buildSubscribeMsg_inj a b hab)
    have hnodupL : (resubscribeToSend subs queue).Nodup := sortDedup_nodup _
    have hperm : (resubscribeToSend subs queue).Perm (subs.map buildSubscribeMsg) := by
      rw [List.perm_ext_iff_of_nodup hnodupL hmapnd]
      exact hmem2
    rw [hperm.length_eq, List.length_map]
  refine ⟨sortDedup_sorted _, sortDedup_nodup _, hmem, hlen, sendsPaced_flatMap _, ?_, ?_⟩
  · intro m
    rw [resubscribeTrace]
    simp [List.mem_flatMap]
  · intro subs2 hperm
    have h1 : (subs2.map buildSubscribeMsg ++ queue).Perm
        (subs.map buildSubscribeMsg ++ queue) := (hperm.map _).append_right queue
    have h2 : List.insertionSort strLe (subs2.map buildSubscribeMsg ++ queue) =
        List.insertionSort strLe (subs.map buildSubscribeMsg ++ queue) := by
      exact List.eq_of_perm_of_sorted
        ((List.perm_insertionSort _ _).trans (h1.trans (List.perm_insertionSort _ _).symm))
        (List.sorted_insertionSort strLe _) (List.sorted_insertionSort strLe _)
    rw [resubscribeToSend, resubscribeToSend, sortDedup, sortDedup, h2]

/-- C4, witness: subscribing to `(ticker, BTC_JPY, "")` and
`(trades, BTC_JPY, "TAKER_ONLY")` before connecting, each twice with
identical arguments, stores exactly the two tuples and queues nothing;
the resubscription then transmits exactly two commands, sorted, with no
duplicates, each paced through the rate limiter. -/
theorem resubscribe_two_tuples :
    (subscribeOp (subscribeOp (subscribeOp (subscribeOp ⟨[], []⟩
          false "ticker" "BTC_JPY" none)
        false "trades" "BTC_JPY" (some "TAKER_ONLY"))
      false "ticker" "BTC_JPY" none)
        false "trades" "BTC_JPY" (some "TAKER_ONLY") =
      ⟨[("ticker", "BTC_JPY", ""), ("trades", "BTC_JPY", "TAKER_ONLY")], []⟩)
    ∧ (resubscribeToSend [("ticker", "BTC_JPY", ""), ("trades", "BTC_JPY", "TAKER_ONLY")]
        []).length = 2
    ∧ (resubscribeToSend [("ticker", "BTC_JPY", ""), ("trades", "BTC_JPY", "TAKER_ONLY")]
        []).Nodup
    ∧ (resubscribeToSend [("ticker", "BTC_JPY", ""), ("trades", "BTC_JPY", "TAKER_ONLY")]
        []).Sorted strLe
    ∧ sendsPaced (resubscribeTrace
        [("ticker", "BTC_JPY", ""), ("trades", "BTC_JPY", "TAKER_ONLY")] []) = true := by
  have h := resubscribe_dedup_sorted_paced
    [("ticker", "BTC_JPY", ""), ("trades", "BTC_JPY", "TAKER_ONLY")] []
    (by decide) (by intro m hm; exact absurd hm (List.not_mem_nil m))
  exact ⟨by decide, h.2.2.2.1, h.2.1, h.1, h.2.2.2.2.1⟩

/-- C5, counterexample.  The claim states that, within a connection, no
command drained from the outgoing queue is transmitted without first
acquiring a rate-limiter token; but the message-loop drain sends every
drained command directly: the drain trace for the queued command `"m"`
is a bare send with no acquisition anywhere. -/
theorem queue_drain_unpaced_cex :
    drainQueueTrace ["m"] = [WsEv.send "m"]
    ∧ WsEv.acquire ∉ drainQueueTrace ["m"]
    ∧ sendsPaced (drainQueueTrace ["m"]) = false := by
  refine ⟨rfl, by decide, rfl⟩

/-- C5, amended.  A subscribe accepted while connected is pushed to the
outgoing queue (and only recorded in the subscription set when not
connected); the message-loop drain then transmits every queued command on
the WebSocket, but without acquiring any rate-limiter token - only the
resubscription replay paces its sends through the rate limiter. -/
theorem queue_drain_unpaced (st : DataClientState) (channel symbol : String)
    (option : Option String) (queue : List String) :
    (subscribeOp st true channel symbol option).outgoing
      = st.outgoing ++ [buildSubscribeMsg (channel, symbol, option.getD "")]
    ∧ (subscribeOp st false channel symbol option).outgoing = st.outgoing
    ∧ (subscribeOp st true channel symbol option).subscriptions
      = insertSub st.subscriptions (channel, symbol, option.getD "")
    ∧ WsEv.acquire ∉ drainQueueTrace queue
    ∧ (∀ m ∈ queue, WsEv.send m ∈ drainQueueTrace queue) := by
  refine ⟨rfl, rfl, rfl, ?_, ?_⟩
  · rw [drainQueueTrace]
    simp
  · intro m hm
    rw [drainQueueTrace]
    exact List.mem_map_of_mem WsEv.send hm

/-- C5, witness: the amended theorem at a concrete state and queue. -/
theorem queue_drain_unpaced_witness :
    (subscribeOp ⟨[], []⟩ true "ticker" "BTC_JPY" none).outgoing
      = [buildSubscribeMsg ("ticker", "BTC_JPY", "")]
    ∧ WsEv.send "q" ∈ drainQueueTrace ["q"] := by
  refine ⟨?_, ?_⟩
  · exact (queue_drain_unpaced ⟨[], []⟩ "ticker" "BTC_JPY" none ["q"]).1
  · exact (queue_drain_unpaced ⟨[], []⟩ "ticker" "BTC_JPY" none ["q"]).2.2.2.2 "q"
      (by decide)


/-! ### Reconnect-loop lemmas -/

theorem runMach_append {σ ι ε : Type} (step : σ → Bool → ι → σ × List ε) (s : σ)
    (l1 l2 : List (Bool × ι)) :
    runMach step s (l1 ++ l2) =
      ((runMach step (runMach step s l1).1 l2).1,
        (runMach step s l1).2 ++ (runMach step (runMach step s l1).1 l2).2) := by
  induction l1 generalizing s with
  | nil => simp [runMach]
  | cons x t ih =>
    obtain ⟨sd, i⟩ := x
    simp [runMach, ih]

theorem dataSleepRun (sd : Bool) (i : DIn) (r b : Nat) :
    dataRun ⟨DPhase.sleeping r, b⟩ (List.replicate (r + 1) (sd, i)) =
      (⟨DPhase.top, nextBackoff b⟩, []) := by
  induction r with
  | zero => simp [dataRun, runMach, dataStep]
  | succ n ih =>
    rw [List.replicate_succ]
    simp only [dataRun] at ih ⊢
    rw [runMach]
    simp only [dataStep]
    simpa using ih

theorem dataFailRun (n : Nat) : ∀ b : Nat,
    (dataRun ⟨DPhase.top, b⟩ (dataFailInputs n b)).1 = ⟨DPhase.top, iterMinDouble 64 n b⟩
    ∧ failDelays (dataRun ⟨DPhase.top, b⟩ (dataFailInputs n b)).2 = doubleCapSeq 64 n b := by
  induction n with
  | zero =>
    intro b
    simp [dataRun, runMach, dataFailInputs, iterMinDouble, doubleCapSeq, failDelays]
  | succ n ih =>
    intro b
    rw [dataFailInputs]
    have hsplit : (false, DIn.connectFail) :: (false, DIn.tick) ::
        (List.replicate (b + 1) (false, DIn.tick) ++ dataFailInputs n (nextBackoff b)) =
        ([(false, DIn.connectFail), (false, DIn.tick)] ++
          List.replicate (b + 1) (false, DIn.tick)) ++ dataFailInputs n (nextBackoff b) := by
      simp
    rw [hsplit]
    simp only [dataRun] at ih ⊢
    rw [runMach_append]
    have h1 : runMach dataStep ⟨DPhase.top, b⟩
        ([(false, DIn.connectFail), (false, DIn.tick)] ++
          List.replicate (b + 1) (false, DIn.tick)) =
        (⟨DPhase.top, nextBackoff b⟩,
          [DEv.connAttempt, DEv.connFailed, DEv.sleepStart b]) := by
      rw [runMach_append]
      have h2 : runMach dataStep ⟨DPhase.top, b⟩
          [(false, DIn.connectFail), (false, DIn.tick)] =
          (⟨DPhase.sleeping b, b⟩, [DEv.connAttempt, DEv.connFailed, DEv.sleepStart b]) := by
        simp [runMach, dataStep]
      rw [h2]
      have h3 := dataSleepRun false DIn.tick b b
      simp only [dataRun] at h3
      rw [h3]
      simp
    rw [h1]
    have hrec := ih (nextBackoff b)
    refine ⟨?_, ?_⟩
    · rw [hrec.1]
      rfl
    · dsimp only
      simp only [List.cons_append, List.nil_append]
      rw [show ∀ l, failDelays (DEv.connAttempt :: DEv.connFailed ::
        DEv.sleepStart b :: l) = b :: failDelays l from fun l => rfl]
      rw [hrec.2]
      rfl

theorem doubleCapSeq_formula (cap : Nat) : ∀ (n b : Nat), b ≤ cap →
    doubleCapSeq cap n b = (List.range n).map (fun k => min (b * 2 ^ k) cap) := by
  intro n
  induction n with
  | zero => intro b hb; simp [doubleCapSeq]
  | succ n ih =>
    intro b hb
    rw [doubleCapSeq, List.range_succ_eq_map, List.map_cons]
    have hhead : min (b * 2 ^ 0) cap = b := by simpa using min_eq_left hb
    rcases le_or_lt (b * 2) cap with h2 | h2
    · rw [min_eq_left h2, ih (b * 2) h2]
      congr 1
      · exact hhead.symm
      · rw [List.map_map]
        refine List.map_congr_left (fun k _ => ?_)
        have he : b * 2 * 2 ^ k = b * 2 ^ (k + 1) := by ring
        simp [Function.comp, he]
    · have hc : min (b * 2) cap = cap := min_eq_right (le_of_lt h2)
      rw [hc, ih cap le_rfl]
      congr 1
      · exact hhead.symm
      · rw [List.map_map]
        refine List.map_congr_left (fun k _ => ?_)
        have hl : cap ≤ cap * 2 ^ k :=
          Nat.le_mul_of_pos_right cap (Nat.pos_pow_of_pos k (by norm_num))
        have hr : cap ≤ b * 2 ^ (k + 1) := by
          calc cap ≤ b * 2 := le_of_lt h2
          _ ≤ b * 2 ^ (k + 1) := by
            have h3 : (2 : Nat) ≤ 2 ^ (k + 1) := by
              calc (2 : Nat) = 2 ^ 1 := by norm_num
              _ ≤ 2 ^ (k + 1) := Nat.pow_le_pow_right (by norm_num) (by omega)
            exact Nat.mul_le_mul_left b h3
        simp [Function.comp, min_eq_right hl, min_eq_right hr]

theorem execSleepRun (sd : Bool) (i : EIn) (r b el : Nat) :
    execRun ⟨EPhase.sleeping r, b, el⟩ (List.replicate (r + 1) (sd, i)) =
      (⟨EPhase.top, nextBackoffE b, el⟩, []) := by
  induction r with
  | zero => simp [execRun, runMach, execStep]
  | succ n ih =>
    rw [List.replicate_succ]
    simp only [execRun] at ih ⊢
    rw [runMach]
    simp only [execStep]
    simpa using ih

theorem execFailRun (n : Nat) : ∀ b el : Nat,
    (execRun ⟨EPhase.top, b, el⟩ (execFailInputs n b)).1 =
      ⟨EPhase.top, iterMinDouble 60 n b, el⟩
    ∧ tokenDelays (execRun ⟨EPhase.top, b, el⟩ (execFailInputs n b)).2 = doubleCapSeq 60 n b
    ∧ EEv.connAttempt ∉ (execRun ⟨EPhase.top, b, el⟩ (execFailInputs n b)).2 := by
  induction n with
  | zero =>
    intro b el
    simp [execRun, runMach, execFailInputs, iterMinDouble, doubleCapSeq, tokenDelays]
  | succ n ih =>
    intro b el
    rw [execFailInputs]
    have hsplit : (false, EIn.tokenFail) ::
        (List.replicate (b + 1) (false, EIn.tick) ++ execFailInputs n (nextBackoffE b)) =
        ([(false, EIn.tokenFail)] ++ List.replicate (b + 1) (false, EIn.tick)) ++
          execFailInputs n (nextBackoffE b) := by simp
    rw [hsplit]
    simp only [execRun] at ih ⊢
    rw [runMach_append]
    have h1 : runMach execStep ⟨EPhase.top, b, el⟩
        ([(false, EIn.tokenFail)] ++ List.replicate (b + 1) (false, EIn.tick)) =
        (⟨EPhase.top, nextBackoffE b, el⟩,
          [EEv.tokenAttempt, EEv.tokenFailed, EEv.sleepStart b]) := by
      rw [runMach_append]
      have h2 : runMach execStep ⟨EPhase.top, b, el⟩ [(false, EIn.tokenFail)] =
          (⟨EPhase.sleeping b, b, el⟩,
            [EEv.tokenAttempt, EEv.tokenFailed, EEv.sleepStart b]) := by
        simp [runMach, execStep]
      rw [h2]
      have h3 := execSleepRun false EIn.tick b b el
      simp only [execRun] at h3
      rw [h3]
      simp
    rw [h1]
    have hrec := ih (nextBackoffE b) el
    refine ⟨?_, ?_, ?_⟩
    · rw [hrec.1]
      rfl
    · dsimp only
      simp only [List.cons_append, List.nil_append]
      rw [show ∀ l, tokenDelays (EEv.tokenAttempt :: EEv.tokenFailed ::
        EEv.sleepStart b :: l) = b :: tokenDelays l from fun l => rfl]
      rw [hrec.2.1]
      rfl
    · dsimp only
      simp only [List.cons_append, List.nil_append, List.mem_cons]
      push_neg
      refine ⟨by decide, by decide, ?_, fun h => hrec.2.2 h⟩
      intro h
      cases h

theorem noFrameFromDormant : ∀ (inputs : List (Bool × EIn)) (s : EState),
    isDormant s.phase → noFrameBeforeToken (execRun s inputs).2 = true := by
  intro inputs
  induction inputs with
  | nil => intro s _; rfl
  | cons x rest ih =>
    intro s hs
    obtain ⟨sd, i⟩ := x
    obtain ⟨ph, bo, el⟩ := s
    simp only [execRun, runMach]
    rcases hs with h | h | h | ⟨r, h⟩ <;> subst h
    · cases sd
      · cases i <;>
          simp only [execStep, Bool.false_eq_true, if_false, List.cons_append,
            List.nil_append]
        case tokenOk => rfl
        all_goals
          exact ih ⟨EPhase.sleeping bo, bo, el⟩ (Or.inr (Or.inr (Or.inr ⟨bo, rfl⟩)))
      · simp only [execStep, if_true, List.cons_append, List.nil_append]
        exact ih ⟨EPhase.done, bo, el⟩ (Or.inr (Or.inr (Or.inl rfl)))
    · cases sd
      · simp only [execStep, Bool.false_eq_true, if_false, List.cons_append, List.nil_append]
        exact ih ⟨EPhase.sleeping bo, bo, el⟩ (Or.inr (Or.inr (Or.inr ⟨bo, rfl⟩)))
      · simp only [execStep, if_true, List.cons_append, List.nil_append]
        exact ih ⟨EPhase.done, bo, el⟩ (Or.inr (Or.inr (Or.inl rfl)))
    · simp only [execStep, List.nil_append]
      exact ih ⟨EPhase.done, bo, el⟩ (Or.inr (Or.inr (Or.inl rfl)))
    · cases r with
      | zero =>
        simp only [execStep, List.nil_append]
        exact ih ⟨EPhase.top, nextBackoffE bo, el⟩ (Or.inl rfl)
      | succ r2 =>
        simp only [execStep, List.nil_append]
        exact ih ⟨EPhase.sleeping r2, bo, el⟩ (Or.inr (Or.inr (Or.inr ⟨r2, rfl⟩)))

theorem dataSleepPartial (k r b : Nat) (hk : k ≤ r) :
    (dataRun ⟨DPhase.sleeping r, b⟩ (List.replicate k (true, DIn.tick))).1 =
      ⟨DPhase.sleeping (r - k), b⟩ := by
  induction k generalizing r with
  | zero => simp [dataRun, runMach]
  | succ n ih =>
    cases r with
    | zero => omega
    | succ r2 =>
      rw [List.replicate_succ]
      simp only [dataRun] at ih ⊢
      rw [runMach]
      simp only [dataStep]
      simpa [Nat.succ_sub_succ] using ih r2 (by omega)

theorem execSleepPartial (k r b el : Nat) (hk : k ≤ r) :
    (execRun ⟨EPhase.sleeping r, b, el⟩ (List.replicate k (true, EIn.tick))).1 =
      ⟨EPhase.sleeping (r - k), b, el⟩ := by
  induction k generalizing r with
  | zero => simp [execRun, runMach]
  | succ n ih =>
    cases r with
    | zero => omega
    | succ r2 =>
      rw [List.replicate_succ]
      simp only [execRun] at ih ⊢
      rw [runMach]
      simp only [execStep]
      simpa [Nat.succ_sub_succ] using ih r2 (by omega)

/-- C6, counterexample.  The claim states that a shutdown request
arriving while a backoff wait is in progress takes effect immediately,
abandoning the remaining wait.  But both loops sleep with a plain
`tokio::time::sleep(...).await` that never re-reads the shutdown flag:
with the flag already set and 2 units of sleep remaining, one step of
either machine merely counts the sleep down to 1 and does not
terminate. -/
theorem shutdown_during_sleep_cex :
    dataStep ⟨DPhase.sleeping 2, 4⟩ true DIn.tick = (⟨DPhase.sleeping 1, 4⟩, [])
    ∧ execStep ⟨EPhase.sleeping 2, 10, 0⟩ true EIn.tick = (⟨EPhase.sleeping 1, 10, 0⟩, [])
    ∧ (⟨DPhase.sleeping 1, 4⟩ : DState).phase ≠ DPhase.done
    ∧ (⟨EPhase.sleeping 1, 10, 0⟩ : EState).phase ≠ EPhase.done :=
  ⟨rfl, rfl, by decide, by decide⟩

/-- C6, amended.  For both streaming clients and every backoff state, a
shutdown request arriving during a backoff sleep is observed only after
the full sleep completes: through the first `k ≤ r` remaining units the
machine stays in the sleeping phase, and after the sleep elapses plus
one loop-head check (`r + 2` steps in total) the loop terminates - with
no further connection or token-acquisition attempt (the only emitted
event is the termination). -/
theorem shutdown_after_sleep (r b k be el : Nat) (hk : k ≤ r) :
    (dataRun ⟨DPhase.sleeping r, b⟩ (List.replicate k (true, DIn.tick))).1
      = ⟨DPhase.sleeping (r - k), b⟩
    ∧ dataRun ⟨DPhase.sleeping r, b⟩ (List.replicate (r + 2) (true, DIn.tick))
      = (⟨DPhase.done, nextBackoff b⟩, [DEv.terminated])
    ∧ (execRun ⟨EPhase.sleeping r, be, el⟩ (List.replicate k (true, EIn.tick))).1
      = ⟨EPhase.sleeping (r - k), be, el⟩
    ∧ execRun ⟨EPhase.sleeping r, be, el⟩ (List.replicate (r + 2) (true, EIn.tick))
      = (⟨EPhase.done, nextBackoffE be, el⟩, [EEv.terminated]) := by
  refine ⟨dataSleepPartial k r b hk, ?_, execSleepPartial k r be el hk, ?_⟩
  · have hsplit : r + 2 = (r + 1) + 1 := rfl
    rw [hsplit, List.replicate_succ']
    simp only [dataRun] at *
    rw [runMach_append]
    have h1 := dataSleepRun true DIn.tick r b
    simp only [dataRun] at h1
    rw [h1]
    simp [runMach, dataStep]
  · have hsplit : r + 2 = (r + 1) + 1 := rfl
    rw [hsplit, List.replicate_succ']
    simp only [execRun] at *
    rw [runMach_append]
    have h1 := execSleepRun true EIn.tick r be el
    simp only [execRun] at h1
    rw [h1]
    simp [runMach, execStep]

/-- C6, witness: the amended theorem at `r = 3`, `k = 2`. -/
theorem shutdown_after_sleep_witness :
    (dataRun ⟨DPhase.sleeping 3, 2⟩ (List.replicate 2 (true, DIn.tick))).1
      = ⟨DPhase.sleeping 1, 2⟩
    ∧ dataRun ⟨DPhase.sleeping 3, 2⟩ (List.replicate 5 (true, DIn.tick))
      = (⟨DPhase.done, 4⟩, [DEv.terminated])
    ∧ execRun ⟨EPhase.sleeping 3, 5, 0⟩ (List.replicate 5 (true, EIn.tick))
      = (⟨EPhase.done, 10, 0⟩, [EEv.terminated]) := by
  have h := shutdown_after_sleep 3 2 2 5 0 (by decide)
  exact ⟨h.1, h.2.1, h.2.2.2⟩

/-- C7, counterexample.  A successful connection resets the backoff to
1, but when the established stream then drops, the bottom-of-loop sleep
consumes that 1 and doubles the backoff to 2; so the run
success, stream-end, sleep, failed-attempt contains a single run of
`n = 1` consecutive failed connection attempts whose retry delay is 2,
not `min(2^(1-1), 64) = 1` - refuting both "the nth retry delay is
min(2^(n-1),64)" and "any successful connection resets the next
failure's delay to 1" as stated. -/
theorem backoff_after_drop_cex :
    (dataRun ⟨DPhase.top, 1⟩
      [(false, DIn.connectOk), (false, DIn.streamEnd), (false, DIn.tick),
       (false, DIn.tick), (false, DIn.tick), (false, DIn.connectFail),
       (false, DIn.tick)]).2 =
      [DEv.connAttempt, DEv.connected, DEv.sleepStart 1,
       DEv.connAttempt, DEv.connFailed, DEv.sleepStart 2]
    ∧ failDelays [DEv.connAttempt, DEv.connected, DEv.sleepStart 1,
       DEv.connAttempt, DEv.connFailed, DEv.sleepStart 2] = [2]
    ∧ (2 : Nat) ≠ min (2 ^ (1 - 1)) 64 := by
  refine ⟨by decide, by decide, by decide⟩

/-- C7, amended.  Every pass through the bottom of the market-data loop
sleeps the current backoff and then doubles it, capped at 64; a
successful connection resets the backoff value to 1.  Hence for a run of
`n` consecutive failed connection attempts starting from process start
(or equivalently from any point where the backoff value is 1), the nth
retry delay is `min(2^(n-1), 64)`; a run preceded by a dropped stream
starts at 2 instead.  The private event client applies the same doubling
policy starting at 5 and capped at 60 to token-acquisition failures, and
never advances to a connection attempt while acquisition keeps
failing. -/
theorem backoff_policy_amended :
    (∀ n, failDelays (dataRun ⟨DPhase.top, 1⟩ (dataFailInputs n 1)).2 =
      (List.range n).map (fun k => min (2 ^ k) 64))
    ∧ (∀ b, dataStep ⟨DPhase.top, b⟩ false DIn.connectOk =
        (⟨DPhase.streaming, 1⟩, [DEv.connAttempt, DEv.connected]))
    ∧ (∀ n, tokenDelays (execRun ⟨EPhase.top, 5, 0⟩ (execFailInputs n 5)).2 =
        (List.range n).map (fun k => min (5 * 2 ^ k) 60))
    ∧ (∀ n, EEv.connAttempt ∉ (execRun ⟨EPhase.top, 5, 0⟩ (execFailInputs n 5)).2)
    ∧ (∀ b, dataStep ⟨DPhase.bottom, b⟩ false DIn.tick =
        (⟨DPhase.sleeping b, b⟩, [DEv.sleepStart b])) := by
  refine ⟨?_, fun b => rfl, ?_, ?_, fun b => rfl⟩
  · intro n
    rw [(dataFailRun n 1).2, doubleCapSeq_formula 64 n 1 (by norm_num)]
    simp
  · intro n
    rw [(execFailRun n 5 0).2.1, doubleCapSeq_formula 60 n 5 (by norm_num)]
  · intro n
    exact (execFailRun n 5 0).2.2

/-- C8.  In the private event client's streaming loop: whenever at least
900 seconds (15 minutes) have elapsed since the last renewal, the next
loop iteration issues the token renewal before receiving or processing
any further frame (the step from the loop head enters the renewing
phase, not the receiving phase, which is otherwise entered directly); a
renewal failure is connection-fatal (the loop leaves the streaming
phases for the backoff bottom), and from there no frame is ever
processed before a fresh token acquisition succeeds; the renewal request
itself is the signed PUT to `/v1/ws-auth`. -/
theorem token_renewal_before_frames :
    (∀ (s : EState) (i : EIn), s.phase = EPhase.streamCheck → 900 ≤ s.elapsed →
      execStep s false i = ({ s with phase := EPhase.renewing }, [EEv.renewIssued]))
    ∧ (∀ (s : EState) (i : EIn), s.phase = EPhase.streamCheck → s.elapsed < 900 →
      execStep s false i = ({ s with phase := EPhase.receiving }, []))
    ∧ (∀ s : EState, s.phase = EPhase.renewing →
      execStep s false EIn.renewFail = ({ s with phase := EPhase.bottom }, [EEv.renewFailed]))
    ∧ (∀ (b el : Nat) (inputs : List (Bool × EIn)),
      noFrameBeforeToken (execRun ⟨EPhase.bottom, b, el⟩ inputs).2 = true)
    ∧ (∀ apiKey apiSecret ts token : String,
      (putWsAuthRequest apiKey apiSecret ts token).method = "PUT"
      ∧ (putWsAuthRequest apiKey apiSecret ts token).headers.lookup "API-SIGN" =
        some (generateSignature apiSecret
          (ts ++ "PUT" ++ "/v1/ws-auth" ++ putWsAuthBody token))) := by
  refine ⟨?_, ?_, ?_, ?_, fun k sec ts token => ⟨rfl, rfl⟩⟩
  · intro s i h1 h2
    obtain ⟨ph, bo, el⟩ := s
    simp only at h1
    subst h1
    simp [execStep, h2]
  · intro s i h1 h2
    obtain ⟨ph, bo, el⟩ := s
    simp only at h1
    subst h1
    simp [execStep, Nat.not_le.mpr h2]
  · intro s h1
    obtain ⟨ph, bo, el⟩ := s
    simp only at h1
    subst h1
    rfl
  · intro b el inputs
    exact noFrameFromDormant inputs ⟨EPhase.bottom, b, el⟩ (Or.inr (Or.inl rfl))

/-- C8, witness: the theorem applied at a state with 900 elapsed
seconds, a failing renewal, and a two-step run from the bottom phase. -/
theorem token_renewal_before_frames_witness :
    execStep ⟨EPhase.streamCheck, 5, 900⟩ false EIn.tick =
      (⟨EPhase.renewing, 5, 900⟩, [EEv.renewIssued])
    ∧ execStep ⟨EPhase.renewing, 5, 900⟩ false EIn.renewFail =
      (⟨EPhase.bottom, 5, 900⟩, [EEv.renewFailed])
    ∧ noFrameBeforeToken (execRun ⟨EPhase.bottom, 5, 900⟩
        [(false, EIn.tick), (false, EIn.tick)]).2 = true := by
  refine ⟨?_, ?_, ?_⟩
  · exact token_renewal_before_frames.1 ⟨EPhase.streamCheck, 5, 900⟩ EIn.tick rfl
      (by norm_num)
  · exact token_renewal_before_frames.2.2.1 ⟨EPhase.renewing, 5, 900⟩ rfl
  · exact token_renewal_before_frames.2.2.2.1 5 900 [(false, EIn.tick), (false, EIn.tick)]


/-! ### Private-event and dispatch theorems -/

theorem entriesFor_upsert (cache : List (Nat × Order)) (k : Nat) (o : Order)
    (hk : o.order_id = k) : entriesFor (upsertOrder cache o) k = [(k, o)] := by
  subst hk
  rw [entriesFor, upsertOrder, List.filter_append]
  have h1 : (cache.filter (fun p => decide (p.1 ≠ o.order_id))).filter
      (fun p => decide (p.1 = o.order_id)) = [] := by
    rw [List.filter_eq_nil_iff]
    intro p hp
    have := (List.mem_filter.mp hp).2
    simp at this ⊢
    exact this
  rw [h1]
  simp

theorem processWs_order (raw : String) (val : Json) (cache : List (Nat × Order))
    (o : Order)
    (herr : (val.get "error").isSome = false)
    (hch : (val.get "channel").bind Json.asStr = some "orderEvents")
    (hdec : decodeOrder val = some o) :
    processWsMessage raw (some val) cache =
      (upsertOrder cache o,
        [ExecEv.cacheUpsert o.order_id o, ExecEv.dispatch "OrderUpdate" raw]) := by
  simp [processWsMessage, herr, hch, channelEventType, hdec]

/-- C9.  For every inbound private-stream frame with no error field that
is classified as an order update (`channel = "orderEvents"`) and decodes
into an `Order` record, the record is upserted into the local order
cache keyed by the exchange order id before the event is dispatched to
the calling application (the cache-upsert effect precedes the dispatch
effect in the trace); consequently the cache holds exactly one entry for
that id, and after a second frame with the same id the single entry is
the latest record. -/
theorem order_upsert_before_dispatch (raw : String) (val : Json)
    (cache : List (Nat × Order)) (o : Order)
    (herr : (val.get "error").isSome = false)
    (hch : (val.get "channel").bind Json.asStr = some "orderEvents")
    (hdec : decodeOrder val = some o) :
    processWsMessage raw (some val) cache =
      (upsertOrder cache o,
        [ExecEv.cacheUpsert o.order_id o, ExecEv.dispatch "OrderUpdate" raw])
    ∧ entriesFor (processWsMessage raw (some val) cache).1 o.order_id = [(o.order_id, o)]
    ∧ (∀ (raw2 : String) (val2 : Json) (o2 : Order),
        (val2.get "error").isSome = false →
        (val2.get "channel").bind Json.asStr = some "orderEvents" →
        decodeOrder val2 = some o2 → o2.order_id = o.order_id →
        entriesFor (processWsMessage raw2 (some val2)
          (processWsMessage raw (some val) cache).1).1 o.order_id = [(o.order_id, o2)]) := by
  have h1 := processWs_order raw val cache o herr hch hdec
  refine ⟨h1, ?_, ?_⟩
  · rw [h1]
    exact entriesFor_upsert cache o.order_id o rfl
  · intro raw2 val2 o2 herr2 hch2 hdec2 hid
    have h2 := processWs_order raw2 val2 (processWsMessage raw (some val) cache).1
      o2 herr2 hch2 hdec2
    rw [h2]
    exact entriesFor_upsert _ o.order_id o2 hid

/-- C9, witness: a frame with `orderId = 42` and status `ORDERED`
followed by a frame with the same id and status `CANCELED` leaves
exactly one cache entry for id 42, holding the latest record. -/
theorem order_upsert_before_dispatch_witness :
    processWsMessage "raw1"
      (some (Json.obj [("channel", Json.str "orderEvents"), ("orderId", Json.num 42),
        ("symbol", Json.str "BTC_JPY"), ("side", Json.str "BUY"),
        ("executionType", Json.str "LIMIT"), ("size", Json.str "1"),
        ("executedSize", Json.str "0"), ("status", Json.str "ORDERED"),
        ("timestamp", Json.str "t1")])) [] =
      (upsertOrder [] ⟨42, none, "BTC_JPY", "BUY", "LIMIT", none, "1", "0",
          none, none, "ORDERED", none, "t1"⟩,
        [ExecEv.cacheUpsert 42 ⟨42, none, "BTC_JPY", "BUY", "LIMIT", none, "1", "0",
          none, none, "ORDERED", none, "t1"⟩,
         ExecEv.dispatch "OrderUpdate" "raw1"])
    ∧ entriesFor (processWsMessage "raw2"
        (some (Json.obj [("channel", Json.str "orderEvents"), ("orderId", Json.num 42),
          ("symbol", Json.str "BTC_JPY"), ("side", Json.str "BUY"),
          ("executionType", Json.str "LIMIT"), ("size", Json.str "1"),
          ("executedSize", Json.str "0"), ("status", Json.str "CANCELED"),
          ("timestamp", Json.str "t2")]))
        (processWsMessage "raw1"
          (some (Json.obj [("channel", Json.str "orderEvents"), ("orderId", Json.num 42),
            ("symbol", Json.str "BTC_JPY"), ("side", Json.str "BUY"),
            ("executionType", Json.str "LIMIT"), ("size", Json.str "1"),
            ("executedSize", Json.str "0"), ("status", Json.str "ORDERED"),
            ("timestamp", Json.str "t1")])) []).1).1 42 =
      [(42, ⟨42, none, "BTC_JPY", "BUY", "LIMIT", none, "1", "0",
          none, none, "CANCELED", none, "t2"⟩)] := by
  have h := order_upsert_before_dispatch "raw1"
    (Json.obj [("channel", Json.str "orderEvents"), ("orderId", Json.num 42),
      ("symbol", Json.str "BTC_JPY"), ("side", Json.str "BUY"),
      ("executionType", Json.str "LIMIT"), ("size", Json.str "1"),
      ("executedSize", Json.str "0"), ("status", Json.str "ORDERED"),
      ("timestamp", Json.str "t1")]) []
    ⟨42, none, "BTC_JPY", "BUY", "LIMIT", none, "1", "0",
      none, none, "ORDERED", none, "t1"⟩ rfl rfl rfl
  refine ⟨h.1, ?_⟩
  exact h.2.2 "raw2"
    (Json.obj [("channel", Json.str "orderEvents"), ("orderId", Json.num 42),
      ("symbol", Json.str "BTC_JPY"), ("side", Json.str "BUY"),
      ("executionType", Json.str "LIMIT"), ("size", Json.str "1"),
      ("executedSize", Json.str "0"), ("status", Json.str "CANCELED"),
      ("timestamp", Json.str "t2")])
    ⟨42, none, "BTC_JPY", "BUY", "LIMIT", none, "1", "0",
      none, none, "CANCELED", none, "t2"⟩ rfl rfl rfl rfl

/-- C10.  For every inbound private-stream text frame that parses as
JSON and carries no error field, when the channel is missing or
unrecognized the registered callback is still invoked with the event
kind "Unknown" and the raw frame text; unlike the market-data client,
which silently drops frames whose channel is empty (including a missing
or non-string channel, defaulted to "") or unrecognized. -/
theorem unknown_channel_dispatch (raw : String) (val : Json)
    (cache : List (Nat × Order)) (books : List (String × OrderBook))
    (herr : (val.get "error").isSome = false)
    (hch : ((val.get "channel").bind Json.asStr).getD "unknown" ∉
      (["executionEvents", "orderEvents", "positionEvents",
        "positionSummaryEvents"] : List String)) :
    processWsMessage raw (some val) cache = (cache, [ExecEv.dispatch "Unknown" raw])
    ∧ (∀ (books2 : List (String × OrderBook)) (ch2 : String) (val2 : Json),
        ch2 ∉ (["ticker", "orderbooks", "trades"] : List String) →
        dataDispatchMessage ch2 val2 books2 = (books2, []))
    ∧ (((val.get "channel").bind Json.asStr).getD "" = "" →
        dataHandleText (some val) books = (books, []))
    ∧ (∀ ch, (val.get "channel").bind Json.asStr = some ch →
        ch ∉ (["ticker", "orderbooks", "trades"] : List String) → ch ≠ "" →
        dataHandleText (some val) books = (books, [])) := by
  simp only [List.mem_cons, List.not_mem_nil, or_false, not_or] at hch
  obtain ⟨h1, h2, h3, h4⟩ := hch
  refine ⟨?_, ?_, ?_, ?_⟩
  · have hev : channelEventType (((val.get "channel").bind Json.asStr).getD "unknown") =
        "Unknown" := by
      rw [channelEventType, if_neg h1, if_neg h2, if_neg h3, if_neg h4]
    simp [processWsMessage, herr, hev]
  · intro books2 ch2 val2 hmem
    simp only [List.mem_cons, List.not_mem_nil, or_false, not_or] at hmem
    obtain ⟨g1, g2, g3⟩ := hmem
    rw [dataDispatchMessage, if_neg g1, if_neg g2, if_neg g3]
  · intro hempty
    simp [dataHandleText, herr, hempty]
  · intro ch hch2 hmem hne
    simp only [List.mem_cons, List.not_mem_nil, or_false, not_or] at hmem
    obtain ⟨g1, g2, g3⟩ := hmem
    rw [dataHandleText]
    simp only [herr, Bool.false_eq_true, if_false, hch2, Option.getD_some]
    rw [if_neg hne, dataDispatchMessage, if_neg g1, if_neg g2, if_neg g3]

/-- C10, witness: a frame on the unrecognized channel "newChannel" is
dispatched as "Unknown" by the private client and dropped by the
market-data client; a frame with no channel at all is likewise
dropped by the market-data client. -/
theorem unknown_channel_dispatch_witness :
    processWsMessage "r" (some (Json.obj [("channel", Json.str "newChannel")])) [] =
      ([], [ExecEv.dispatch "Unknown" "r"])
    ∧ dataDispatchMessage "newChannel" (Json.obj [("channel", Json.str "newChannel")]) [] =
      ([], [])
    ∧ dataHandleText (some (Json.obj [("foo", Json.num 1)])) [] = ([], []) := by
  have h := unknown_channel_dispatch "r" (Json.obj [("channel", Json.str "newChannel")])
    [] [] rfl (by decide)
  have h2 := unknown_channel_dispatch "r" (Json.obj [("foo", Json.num 1)])
    [] [] rfl (by decide)
  exact ⟨h.1, h.2.1 [] "newChannel" (Json.obj [("channel", Json.str "newChannel")])
    (by decide), h2.2.2.1 rfl⟩

end Gmocoin
